import Mathlib

/-!
Verification of the human-cursor trajectory pipeline.

The TypeScript sources are embedded shallowly:
* JS numbers are modelled as rationals (`ℚ`); the model has no NaN/Infinity,
  so the `checkIfNumeric` / `checkIfListOfPoints` runtime guards of the source
  are identically true and are recorded as comments at their call sites.
* `Math.random()` draws are modelled as explicit streams `ℕ → ℚ`; a hypothesis
  `0 ≤ u i ∧ u i < 1` mirrors the documented range of `Math.random()`.
* `Math.sqrt` appears in the source only under `Math.floor` (point-count
  computation) or as an opaque distance fed to `max`; the former is modelled
  exactly via `Nat.sqrt` (and proved equal to the floor of the real square
  root), the latter is abstracted as an explicit `dist` parameter.
* The Box-Muller normal deviate `z0` of `randomNormal` is a transcendental
  function of the uniform draws; it is abstracted as an arbitrary stream
  `noise : ℕ → ℚ`, so every theorem quantifying over `noise` holds for every
  outcome of the Box-Muller transform.
* The easing catalog (tweening.ts) is real-valued (sin/cos/2^x/sqrt) and is
  embedded over `ℝ`.
Fallible functions return `Except String` mirroring `throw new Error(...)`.
-/

namespace HumanCursor

/-- 2-D point `{x, y}` from math.ts, over `ℚ`. -/
structure Vec where
  x : ℚ
  y : ℚ
deriving DecidableEq

/-- Default point used to totalize JS array indexing; every indexed access in
the claims below is proved in-bounds, so the default is never observed. -/
def P0 : Vec := ⟨0, 0⟩

/-- Decidable equality of `Except` results, so concrete pipeline runs can be
checked by `decide`. -/
instance {e a : Type} [DecidableEq e] [DecidableEq a] : DecidableEq (Except e a) := fun x y =>
  match x, y with
  | .error u, .error v => if h : u = v then .isTrue (by rw [h]) else .isFalse (by simp [h])
  | .error _, .ok _ => .isFalse (by simp)
  | .ok _, .error _ => .isFalse (by simp)
  | .ok u, .ok v => if h : u = v then .isTrue (by rw [h]) else .isFalse (by simp [h])

/-- JS `Math.floor` on a rational, staying in `ℚ`. -/
def jsFloor (q : ℚ) : ℚ := (⌊q⌋ : ℚ)

/-! ## bezier-calculator.ts -/

/-- `factorial` from bezier-calculator.ts (loop result, as a rational since JS
computes it in floating point). -/
def factorial (n : ℕ) : ℚ := (Nat.factorial n : ℚ)

/-- `binomial(n, k) = factorial(n) / (factorial(k) * factorial(n - k))`. -/
def binomial (n k : ℕ) : ℚ := factorial n / (factorial k * factorial (n - k))

/-- `bernsteinPolynomialPoint(x, i, n) = binomial(n, i) * x^i * (1-x)^(n-i)`. -/
def bernsteinPolynomialPoint (x : ℚ) (i n : ℕ) : ℚ :=
  binomial n i * x ^ i * (1 - x) ^ (n - i)

/-- `bernsteinPolynomial(points)(t)`: accumulates
`Σ_i points[i] * bernsteinPolynomialPoint(t, i, n)` with `n = points.length - 1`
coordinatewise. -/
def bernsteinPolynomial (points : List Vec) (t : ℚ) : Vec :=
  { x := ∑ i ∈ Finset.range points.length,
      (points.getD i P0).x * bernsteinPolynomialPoint t i (points.length - 1)
    y := ∑ i ∈ Finset.range points.length,
      (points.getD i P0).y * bernsteinPolynomialPoint t i (points.length - 1) }

/-- `calculatePointsInCurve(n, points)`: throws for `n < 2`; otherwise emits
`n` samples, copying the first/last control point verbatim at the ends and
evaluating the Bernstein polynomial at `t = i/(n-1)` in between. -/
def calculatePointsInCurve (n : ℕ) (points : List Vec) : Except String (List Vec) :=
  if n < 2 then .error "n must be at least 2"
  else .ok ((List.range n).map fun i =>
    if i = 0 then points.headD P0
    else if i = n - 1 then points.getLastD P0
    else bernsteinPolynomial points ((i : ℚ) / ((n : ℚ) - 1)))

/-! ## human-curve-generator.ts -/

/-- `generateInternalKnots`: the boundary-numeric check is identically true
over `ℚ`; a non-integer or negative `knotsCount` is coerced to `0`; inverted
boundaries throw; otherwise `knotsCount` knots are drawn with
`Math.floor(Math.random() * (hi - lo + 1)) + lo` per coordinate.  The knot at
loop index `i` consumes draws `rand (2*i)` (x) and `rand (2*i+1)` (y). -/
def generateInternalKnots (lB rB dB uB : ℚ) (knotsCount : ℚ) (rand : ℕ → ℚ) :
    Except String (List Vec) :=
  let kc : ℕ := if knotsCount.den = 1 ∧ 0 ≤ knotsCount then knotsCount.num.toNat else 0
  if lB > rB then .error "left_boundary must be less than or equal to right_boundary"
  else if dB > uB then .error "down_boundary must be less than or equal to upper_boundary"
  else .ok ((List.range kc).map fun i =>
    { x := jsFloor (rand (2 * i) * (rB - lB + 1)) + lB
      y := jsFloor (rand (2 * i + 1) * (uB - dB + 1)) + dB })

/-- Squared Euclidean distance `(to.x-from.x)^2 + (to.y-from.y)^2`. -/
def distSq (p q : Vec) : ℚ := (q.x - p.x) ^ 2 + (q.y - p.y) ^ 2

/-- `Math.floor(Math.sqrt(distSq))`, computed exactly on rationals;
`natFloor_sqrt_ratCast` below proves this equals `⌊Real.sqrt …⌋₊`. -/
def distFloor (p q : Vec) : ℕ := Nat.sqrt ⌊distSq p q⌋₊

/-- `generatePoints(knots)`: the `checkIfListOfPoints` guard is identically
true over `ℚ`; `midPtsCnt = max(Math.floor(distance), 50)` and the control
polygon is `[fromPoint, ...knots, toPoint]`. -/
def generatePoints (fromP toP : Vec) (knots : List Vec) : Except String (List Vec) :=
  let midPtsCnt := max (distFloor fromP toP) 50
  calculatePointsInCurve midPtsCnt (fromP :: (knots ++ [toP]))

/-- `distortPoints`: the numeric/point-list guards are identically true over
`ℚ`; an out-of-range `distortionFrequency` throws; otherwise the first point is
kept, each interior point `i` gets `randomNormal = noise i * stDev + mean`
added to `y` when `coin i < frequency` (else `0`), and the last point is kept.
`coin i` models the `Math.random()` frequency draw and `noise i` the
Box-Muller deviate `z0` for loop index `i`. -/
def distortPoints (points : List Vec) (distortionMean distortionStDev distortionFrequency : ℚ)
    (coin noise : ℕ → ℚ) : Except String (List Vec) :=
  if distortionFrequency < 0 ∨ distortionFrequency > 1 then
    .error "distortion_frequency must be in range [0,1]"
  else .ok ([points.getD 0 P0] ++
    ((List.range (points.length - 2)).map fun j =>
      let p := points.getD (j + 1) P0
      let delta : ℚ :=
        if coin (j + 1) < distortionFrequency
        then noise (j + 1) * distortionStDev + distortionMean else 0
      ⟨p.x, p.y + delta⟩) ++
    [points.getD (points.length - 1) P0])

/-- `tweenPoints`: the point-list guard is identically true over `ℚ`; a
non-integer or `< 2` `targetPoints` throws; when the input already has at most
`targetPoints` points it is returned unchanged (`[...points]` is the same
list); otherwise exactly `targetPoints` points are produced, copying the
endpoints verbatim and linearly interpolating at the tween-mapped continuous
index in between.  JS indexing out of `[0, length)` would produce NaN
coordinates, which `ℚ` cannot represent; the model totalizes it with
`Int.toNat`/`getD` (no claim below depends on such an access). -/
def tweenPoints (points : List Vec) (tween : ℚ → ℚ) (targetPoints : ℚ) :
    Except String (List Vec) :=
  if ¬(targetPoints.den = 1 ∧ 2 ≤ targetPoints) then
    .error "target_points must be an integer greater or equal to 2"
  else if (points.length : ℚ) ≤ targetPoints then .ok points
  else
    let tp : ℕ := targetPoints.num.toNat
    .ok ((List.range tp).map fun i =>
      if i = 0 then points.headD P0
      else if i = tp - 1 then points.getLastD P0
      else
        let t : ℚ := (i : ℚ) / ((tp : ℚ) - 1)
        let tweenedT := tween t
        let continuousIndex := tweenedT * ((points.length : ℚ) - 1)
        let lowerIndex : ℤ := ⌊continuousIndex⌋
        let upperIndex : ℤ := min (lowerIndex + 1) ((points.length : ℤ) - 1)
        let fraction : ℚ := continuousIndex - (lowerIndex : ℚ)
        let lowerPoint := points.getD lowerIndex.toNat P0
        let upperPoint := points.getD upperIndex.toNat P0
        { x := lowerPoint.x + (upperPoint.x - lowerPoint.x) * fraction
          y := lowerPoint.y + (upperPoint.y - lowerPoint.y) * fraction })

/-- `easeOutQuad(t) = t * (2 - t)` from tweening.ts, over `ℚ`: the default
tween of `generateCurve`. -/
def easeOutQuad (t : ℚ) : ℚ := t * (2 - t)

/-- `HumanCurveOptions` with every field optional, as in the source. -/
structure HumanCurveOptions where
  offsetBoundaryX : Option ℚ := none
  offsetBoundaryY : Option ℚ := none
  leftBoundary : Option ℚ := none
  rightBoundary : Option ℚ := none
  downBoundary : Option ℚ := none
  upBoundary : Option ℚ := none
  knotsCount : Option ℚ := none
  distortionMean : Option ℚ := none
  distortionStDev : Option ℚ := none
  distortionFrequency : Option ℚ := none
  tweening : Option (ℚ → ℚ) := none
  targetPoints : Option ℚ := none

/-- `options?.leftBoundary ?? Math.min(from.x, to.x) - offsetBoundaryX` with
`offsetBoundaryX` defaulting to 80. -/
def effLeft (fromP toP : Vec) (o : HumanCurveOptions) : ℚ :=
  o.leftBoundary.getD (min fromP.x toP.x - o.offsetBoundaryX.getD 80)

/-- `options?.rightBoundary ?? Math.max(from.x, to.x) + offsetBoundaryX`. -/
def effRight (fromP toP : Vec) (o : HumanCurveOptions) : ℚ :=
  o.rightBoundary.getD (max fromP.x toP.x + o.offsetBoundaryX.getD 80)

/-- `options?.downBoundary ?? Math.min(from.y, to.y) - offsetBoundaryY`. -/
def effDown (fromP toP : Vec) (o : HumanCurveOptions) : ℚ :=
  o.downBoundary.getD (min fromP.y toP.y - o.offsetBoundaryY.getD 80)

/-- `options?.upBoundary ?? Math.max(from.y, to.y) + offsetBoundaryY`. -/
def effUp (fromP toP : Vec) (o : HumanCurveOptions) : ℚ :=
  o.upBoundary.getD (max fromP.y toP.y + o.offsetBoundaryY.getD 80)

/-- `options?.knotsCount ?? 2`. -/
def effKnots (o : HumanCurveOptions) : ℚ := o.knotsCount.getD 2

/-- `options?.distortionMean ?? 1`. -/
def effMean (o : HumanCurveOptions) : ℚ := o.distortionMean.getD 1

/-- `options?.distortionStDev ?? 1`. -/
def effStDev (o : HumanCurveOptions) : ℚ := o.distortionStDev.getD 1

/-- `options?.distortionFrequency ?? 0.5`. -/
def effFreq (o : HumanCurveOptions) : ℚ := o.distortionFrequency.getD (1/2)

/-- `options?.tweening ?? easeOutQuad`. -/
def effTween (o : HumanCurveOptions) : ℚ → ℚ := o.tweening.getD easeOutQuad

/-- `options?.targetPoints ?? 100`. -/
def effTarget (o : HumanCurveOptions) : ℚ := o.targetPoints.getD 100

/-- `generateCurve` (the body of the `HumanizeMouseTrajectory` constructor):
knots → coarse Bezier sampling → distortion → resampling, with thrown errors
propagating.  `randKnots`, `coin` and `noise` are the random streams of the
three random stages. -/
def generateCurve (fromP toP : Vec) (o : HumanCurveOptions)
    (randKnots coin noise : ℕ → ℚ) : Except String (List Vec) :=
  match generateInternalKnots (effLeft fromP toP o) (effRight fromP toP o)
      (effDown fromP toP o) (effUp fromP toP o) (effKnots o) randKnots with
  | .error e => .error e
  | .ok internalKnots =>
    match generatePoints fromP toP internalKnots with
    | .error e => .error e
    | .ok pts1 =>
      match distortPoints pts1 (effMean o) (effStDev o) (effFreq o) coin noise with
      | .error e => .error e
      | .ok pts2 => tweenPoints pts2 (effTween o) (effTarget o)

/-- The validation conditions of the pipeline, on the effective (defaulted)
parameter values: ordered boundaries, `distortionFrequency ∈ [0,1]`, and an
integer `targetPoints ≥ 2`.  (The "numeric" conditions of the source are
identically true over `ℚ`.) -/
def ValidCurveInputs (fromP toP : Vec) (o : HumanCurveOptions) : Prop :=
  effLeft fromP toP o ≤ effRight fromP toP o ∧
  effDown fromP toP o ≤ effUp fromP toP o ∧
  0 ≤ effFreq o ∧ effFreq o ≤ 1 ∧
  (effTarget o).den = 1 ∧ 2 ≤ effTarget o

instance (fromP toP : Vec) (o : HumanCurveOptions) :
    Decidable (ValidCurveInputs fromP toP o) := by
  unfold ValidCurveInputs; infer_instance

/-! ## calculate-and-randomize.ts -/

/-- A `{min, max}` integer range record. -/
structure RangeQ where
  min : ℚ
  max : ℚ
deriving DecidableEq

/-- The scan loop of `weightedRandomChoice`: subtract each weight from the
running value and return the first item where it drops to `≤ 0`; if the
weights run out first (JS would produce NaN comparisons, all false) keep
scanning; an exhausted item list yields the fallback. -/
def wrcGo {α : Type} : List α → List ℚ → ℚ → α → α
  | [], _, _, fb => fb
  | x :: xs, w :: ws, r, fb => if r - w ≤ 0 then x else wrcGo xs ws (r - w) fb
  | _ :: xs, [], r, fb => wrcGo xs [] r fb

/-- `weightedRandomChoice(items, weights)` with the uniform draw `u` made
explicit: `r = u * Σweights`, linear scan, fallback `items[items.length-1]`
(`dflt` stands in for the out-of-bounds access on an empty item list, which
no call site performs). -/
def weightedRandomChoice {α : Type} (items : List α) (weights : List ℚ) (u : ℚ)
    (dflt : α) : α :=
  wrcGo items weights (u * weights.sum) (items.getLastD dflt)

/-- `randomFromRange(min, max) = Math.floor(u * (max - min + 1)) + min`. -/
def randomFromRange (lo hi u : ℚ) : ℚ := jsFloor (u * (hi - lo + 1)) + lo

/-- `RandomCurveParameters`; the chosen tween is recorded as its index into
`TWEEN_OPTIONS` (`Math.floor(Math.random() * TWEEN_OPTIONS.length)`, length
13) since the catalog functions are real-valued. -/
structure RandomCurveParameters where
  offsetBoundaryX : ℚ
  offsetBoundaryY : ℚ
  knotsCount : ℚ
  distortionMean : ℚ
  distortionStDev : ℚ
  distortionFrequency : ℚ
  tweenIndex : ℕ
  targetPoints : ℚ

/-- `generateRandomCurveParameters(preOrigin, postDestination)`.  The
`distance = Math.sqrt(…)` between the two points is generally irrational, so
it enters the model as the explicit parameter `dist` (theorems quantify over
every `dist ≥ 0`); `u` is the `Math.random()` stream in call order. -/
def generateRandomCurveParameters (dist : ℚ) (u : ℕ → ℚ) : RandomCurveParameters :=
  let tweenIndex : ℕ := (⌊u 0 * 13⌋).toNat
  let selectedXRange := weightedRandomChoice
    [RangeQ.mk 20 44, RangeQ.mk 45 74, RangeQ.mk 75 99] [0.2, 0.65, 15] (u 1) (RangeQ.mk 0 0)
  let offsetBoundaryX0 := randomFromRange selectedXRange.min selectedXRange.max (u 2)
  let selectedYRange := weightedRandomChoice
    [RangeQ.mk 20 44, RangeQ.mk 45 74, RangeQ.mk 75 99] [0.2, 0.65, 15] (u 3) (RangeQ.mk 0 0)
  let offsetBoundaryY0 := randomFromRange selectedYRange.min selectedYRange.max (u 4)
  let knotsCount0 := weightedRandomChoice [1, 2, 3, 4, 5, 6, 7, 8, 9, 10]
    [0.15, 0.36, 0.17, 0.12, 0.08, 0.04, 0.03, 0.02, 0.015, 0.005] (u 5) 0
  let distortionMean := randomFromRange 80 109 (u 6) / 100
  let distortionStDev := randomFromRange 85 109 (u 7) / 100
  let distortionFrequency := randomFromRange 25 69 (u 8) / 100
  let selectedPointsRange := weightedRandomChoice
    [RangeQ.mk 35 44, RangeQ.mk 45 59, RangeQ.mk 60 79] [0.53, 0.32, 0.15] (u 9) (RangeQ.mk 0 0)
  let targetPoints := randomFromRange selectedPointsRange.min selectedPointsRange.max (u 10)
  let minBoundary := max 30 (dist * 0.15)
  { offsetBoundaryX := max offsetBoundaryX0 minBoundary
    offsetBoundaryY := max offsetBoundaryY0 minBoundary
    knotsCount := max knotsCount0 2
    distortionMean := distortionMean
    distortionStDev := distortionStDev
    distortionFrequency := distortionFrequency
    tweenIndex := tweenIndex
    targetPoints := targetPoints }

/-- The option bundle that `pathWithHumanCurve` (spoof.ts) passes to
`new HumanizeMouseTrajectory(start, endPoint, …)` from a generated parameter
set, with the chosen tween function `tw`. -/
def optionsOfParams (p : RandomCurveParameters) (tw : ℚ → ℚ) : HumanCurveOptions :=
  { offsetBoundaryX := some p.offsetBoundaryX
    offsetBoundaryY := some p.offsetBoundaryY
    knotsCount := some p.knotsCount
    distortionMean := some p.distortionMean
    distortionStDev := some p.distortionStDev
    distortionFrequency := some p.distortionFrequency
    tweening := some tw
    targetPoints := some p.targetPoints }

/-! ## tweening.ts — the easing catalog, over `ℝ` (the functions involve
`sin`, `cos`, `2^x` and `sqrt`) -/

noncomputable section

/-- `linear(t) = t`. -/
def linear (t : ℝ) : ℝ := t

/-- `easeOutExpo(t) = t === 1 ? 1 : 1 - 2^(-10t)`. -/
def easeOutExpo (t : ℝ) : ℝ := if t = 1 then 1 else 1 - (2 : ℝ) ^ (-10 * t)

/-- `easeInOutQuint`: `16 t^5` below `0.5`, else `1 + 16 (t-1)^5`. -/
def easeInOutQuint (t : ℝ) : ℝ :=
  if t < 1/2 then 16 * t ^ 5 else 1 + 16 * (t - 1) ^ 5

/-- `easeInOutSine(t) = -(cos(π t) - 1) / 2`. -/
def easeInOutSine (t : ℝ) : ℝ := -(Real.cos (Real.pi * t) - 1) / 2

/-- `easeInOutQuart`: `8 t^4` below `0.5`, else `1 - 8 (t-1)^4`. -/
def easeInOutQuart (t : ℝ) : ℝ :=
  if t < 1/2 then 8 * t ^ 4 else 1 - 8 * (t - 1) ^ 4

/-- `easeInOutExpo` with its exact `0`/`1` special cases. -/
def easeInOutExpo (t : ℝ) : ℝ :=
  if t = 0 then 0
  else if t = 1 then 1
  else if t < 1/2 then (2 : ℝ) ^ (20 * t - 10) / 2
  else (2 - (2 : ℝ) ^ (-20 * t + 10)) / 2

/-- `easeInOutCubic`: `4 t^3` below `0.5`, else `((2t-2)^3 + 2) / 2`. -/
def easeInOutCubic (t : ℝ) : ℝ :=
  if t < 1/2 then 4 * t ^ 3 else ((2 * t - 2) ^ 3 + 2) / 2

/-- `easeInOutCirc`. -/
def easeInOutCirc (t : ℝ) : ℝ :=
  if t < 1/2 then (1 - Real.sqrt (1 - (2 * t) ^ 2)) / 2
  else (Real.sqrt (1 - (-2 * t + 2) ^ 2) + 1) / 2

/-- `easeOutSine(t) = sin(t π / 2)`. -/
def easeOutSine (t : ℝ) : ℝ := Real.sin (t * Real.pi / 2)

/-- `easeOutQuart(t) = 1 - (t-1)^4`. -/
def easeOutQuart (t : ℝ) : ℝ := 1 - (t - 1) ^ 4

/-- `easeOutQuint(t) = 1 + (t-1)^5`. -/
def easeOutQuint (t : ℝ) : ℝ := 1 + (t - 1) ^ 5

/-- `easeOutCubic(t) = (t-1)^3 + 1`. -/
def easeOutCubic (t : ℝ) : ℝ := (t - 1) ^ 3 + 1

/-- `easeOutCirc(t) = sqrt(1 - (t-1)^2)`. -/
def easeOutCirc (t : ℝ) : ℝ := Real.sqrt (1 - (t - 1) ^ 2)

/-- The `TWEEN_OPTIONS` catalog, in source order (length 13). -/
def TWEEN_OPTIONS : List (ℝ → ℝ) :=
  [easeOutExpo, easeInOutQuint, easeInOutSine, easeInOutQuart, easeInOutExpo,
    easeInOutCubic, easeInOutCirc, linear, easeOutSine, easeOutQuart,
    easeOutQuint, easeOutCubic, easeOutCirc]

end

/-- The easing-function contract of the spec: exact `0`/`1` endpoints, range
inside `[0,1]`, and monotone non-decreasing on `[0,1]`. -/
def IsEasing (f : ℝ → ℝ) : Prop :=
  f 0 = 0 ∧ f 1 = 1 ∧
  (∀ t : ℝ, 0 ≤ t → t ≤ 1 → 0 ≤ f t ∧ f t ≤ 1) ∧
  (∀ s t : ℝ, 0 ≤ s → s ≤ t → t ≤ 1 → f s ≤ f t)

/-! ## List indexing helpers -/

lemma headD_eq_getD_zero {α : Type} (l : List α) (d : α) : l.headD d = l.getD 0 d := by
  cases l <;> rfl

lemma getLastD_eq_getD {α : Type} (l : List α) (d : α) :
    l.getLastD d = l.getD (l.length - 1) d := by
  rw [List.getLastD_eq_getLast?, List.getLast?_eq_getElem?, List.getD_eq_getElem?_getD]

lemma length_range_map {α : Type} (f : ℕ → α) (n : ℕ) :
    ((List.range n).map f).length = n := by simp

lemma getD_range_map {α : Type} (f : ℕ → α) {n i : ℕ} (h : i < n) (d : α) :
    ((List.range n).map f).getD i d = f i := by
  rw [List.getD_eq_getElem _ _ (by simpa using h)]
  simp

/-! ## Bezier evaluator facts -/

lemma calculatePointsInCurve_ok {n : ℕ} (hn : 2 ≤ n) (points : List Vec) :
    calculatePointsInCurve n points =
      .ok ((List.range n).map fun i =>
        if i = 0 then points.headD P0
        else if i = n - 1 then points.getLastD P0
        else bernsteinPolynomial points ((i : ℚ) / ((n : ℚ) - 1))) := by
  unfold calculatePointsInCurve
  rw [if_neg (by omega)]

lemma binomial_eq_choose {n k : ℕ} (h : k ≤ n) : binomial n k = (n.choose k : ℚ) := by
  rw [binomial, factorial, factorial, factorial]
  exact (Nat.cast_choose ℚ h).symm

/-- C2: `calculatePointsInCurve(N, points)` with `K ≥ 1` control points and
`N ≥ 2` samples returns exactly `N` points; index 0 copies control point 0,
index `N-1` copies the last control point, and every interior index `i` is the
Bernstein basis sum `Σ_j C(K-1,j)·t^j·(1-t)^(K-1-j)·P_j` at `t = i/(N-1)`. -/
theorem calculatePointsInCurve_bernstein_spec (N : ℕ) (points : List Vec)
    (hN : 2 ≤ N) (hK : 1 ≤ points.length) :
    ∃ out, calculatePointsInCurve N points = .ok out ∧
      out.length = N ∧
      out.getD 0 P0 = points.getD 0 P0 ∧
      out.getD (N - 1) P0 = points.getD (points.length - 1) P0 ∧
      ∀ i, 0 < i → i < N - 1 →
        out.getD i P0 =
          { x := ∑ j ∈ Finset.range points.length,
              ((points.length - 1).choose j : ℚ) * ((i : ℚ) / ((N : ℚ) - 1)) ^ j *
                (1 - (i : ℚ) / ((N : ℚ) - 1)) ^ (points.length - 1 - j) *
                (points.getD j P0).x
            y := ∑ j ∈ Finset.range points.length,
              ((points.length - 1).choose j : ℚ) * ((i : ℚ) / ((N : ℚ) - 1)) ^ j *
                (1 - (i : ℚ) / ((N : ℚ) - 1)) ^ (points.length - 1 - j) *
                (points.getD j P0).y } := by
  refine ⟨_, calculatePointsInCurve_ok hN points, by simp, ?_, ?_, ?_⟩
  · rw [getD_range_map _ (by omega)]
    rw [if_pos rfl, headD_eq_getD_zero]
  · rw [getD_range_map _ (by omega)]
    rw [if_neg (by omega), if_pos rfl, getLastD_eq_getD]
  · intro i hi0 hiN
    rw [getD_range_map _ (by omega), if_neg (by omega), if_neg (by omega)]
    unfold bernsteinPolynomial
    have hterm : ∀ (c : Vec → ℚ) (j : ℕ), j ∈ Finset.range points.length →
        c (points.getD j P0) * bernsteinPolynomialPoint ((i : ℚ) / ((N : ℚ) - 1)) j
            (points.length - 1) =
          ((points.length - 1).choose j : ℚ) * ((i : ℚ) / ((N : ℚ) - 1)) ^ j *
            (1 - (i : ℚ) / ((N : ℚ) - 1)) ^ (points.length - 1 - j) *
            c (points.getD j P0) := by
      intro c j hj
      rw [Finset.mem_range] at hj
      rw [bernsteinPolynomialPoint, binomial_eq_choose (by omega)]
      ring
    exact congrArg₂ Vec.mk (Finset.sum_congr rfl (hterm fun p => p.x))
      (Finset.sum_congr rfl (hterm fun p => p.y))

/-- Witness for C2 at `N = 3`, `points = [(0,0), (2,4)]`. -/
theorem calculatePointsInCurve_bernstein_spec_witness :
    2 ≤ 3 ∧ 1 ≤ ([⟨0, 0⟩, ⟨2, 4⟩] : List Vec).length ∧
      ∃ out, calculatePointsInCurve 3 [⟨0, 0⟩, ⟨2, 4⟩] = .ok out ∧
        out.length = 3 ∧
        out.getD 0 P0 = ([⟨0, 0⟩, ⟨2, 4⟩] : List Vec).getD 0 P0 ∧
        out.getD (3 - 1) P0 =
          ([⟨0, 0⟩, ⟨2, 4⟩] : List Vec).getD (([⟨0, 0⟩, ⟨2, 4⟩] : List Vec).length - 1) P0 ∧
        ∀ i, 0 < i → i < 3 - 1 →
          out.getD i P0 =
            { x := ∑ j ∈ Finset.range ([⟨0, 0⟩, ⟨2, 4⟩] : List Vec).length,
                ((([⟨0, 0⟩, ⟨2, 4⟩] : List Vec).length - 1).choose j : ℚ) *
                  ((i : ℚ) / ((3 : ℚ) - 1)) ^ j *
                  (1 - (i : ℚ) / ((3 : ℚ) - 1)) ^
                    (([⟨0, 0⟩, ⟨2, 4⟩] : List Vec).length - 1 - j) *
                  (([⟨0, 0⟩, ⟨2, 4⟩] : List Vec).getD j P0).x
              y := ∑ j ∈ Finset.range ([⟨0, 0⟩, ⟨2, 4⟩] : List Vec).length,
                ((([⟨0, 0⟩, ⟨2, 4⟩] : List Vec).length - 1).choose j : ℚ) *
                  ((i : ℚ) / ((3 : ℚ) - 1)) ^ j *
                  (1 - (i : ℚ) / ((3 : ℚ) - 1)) ^
                    (([⟨0, 0⟩, ⟨2, 4⟩] : List Vec).length - 1 - j) *
                  (([⟨0, 0⟩, ⟨2, 4⟩] : List Vec).getD j P0).y } :=
  ⟨by decide, by decide, calculatePointsInCurve_bernstein_spec 3 _ (by decide) (by decide)⟩

/-! ## Internal knot generation -/

lemma generateInternalKnots_ok {lB rB dB uB : ℚ} (hlr : lB ≤ rB) (hdu : dB ≤ uB)
    (kc : ℚ) (rand : ℕ → ℚ) :
    generateInternalKnots lB rB dB uB kc rand =
      .ok ((List.range (if kc.den = 1 ∧ 0 ≤ kc then kc.num.toNat else 0)).map fun i =>
        { x := jsFloor (rand (2 * i) * (rB - lB + 1)) + lB
          y := jsFloor (rand (2 * i + 1) * (uB - dB + 1)) + dB }) := by
  unfold generateInternalKnots
  rw [if_neg (not_lt.2 hlr), if_neg (not_lt.2 hdu)]

lemma jsFloor_unit_mul_bounds {u w : ℚ} (hu0 : 0 ≤ u) (hu1 : u < 1) (hw : 1 ≤ w) :
    0 ≤ jsFloor (u * w) ∧ jsFloor (u * w) < w := by
  have hw0 : (0 : ℚ) < w := lt_of_lt_of_le one_pos hw
  constructor
  · have h : (0 : ℤ) ≤ ⌊u * w⌋ := Int.floor_nonneg.2 (mul_nonneg hu0 hw0.le)
    unfold jsFloor
    exact_mod_cast h
  · unfold jsFloor
    calc ((⌊u * w⌋ : ℚ)) ≤ u * w := Int.floor_le _
    _ < 1 * w := mul_lt_mul_of_pos_right hu1 hw0
    _ = w := one_mul w

/-- C6 counterexample: with numeric boundaries `left = 0 ≤ right = 1/2`,
`knotsCount = 1` and an x-draw of `4/5`, the generated knot has
`x = ⌊(4/5)·(3/2)⌋ + 0 = 1 > right`, so a knot can land outside
`[left, right]` when `right - left` is not an integer. -/
theorem generateInternalKnots_range_counterexample :
    generateInternalKnots 0 (1/2) 0 0 1 (fun _ => 4/5) =
      .ok [{ x := 1, y := 0 }] ∧ ¬((1 : ℚ) ≤ 1/2) := by
  constructor
  · rw [generateInternalKnots_ok (by norm_num) (by norm_num)]
    have hc : ((1 : ℚ)).den = 1 ∧ (0 : ℚ) ≤ 1 := by norm_num
    have h1 : ((1 : ℚ)).num.toNat = 1 := by norm_num
    rw [if_pos hc, h1]
    have hfx : (⌊(4 : ℚ)/5 * ((1 : ℚ)/2 - 0 + 1)⌋ : ℤ) = 1 := by
      rw [Int.floor_eq_iff]
      norm_num
    have hfy : (⌊(4 : ℚ)/5 * ((0 : ℚ) - 0 + 1)⌋ : ℤ) = 0 := by
      rw [Int.floor_eq_iff]
      norm_num
    have hrange : List.range 1 = [0] := rfl
    simp only [hrange, List.map_cons, List.map_nil, jsFloor, hfx, hfy]
    norm_num
  · norm_num

/-- C6 (amended): for numeric ordered boundaries and an integer
`knotsCount ≥ 0`, `generateInternalKnots` returns exactly `knotsCount` points,
and every returned point satisfies `left ≤ x < right + 1` and
`down ≤ y < up + 1` (the upper bounds tighten to `x ≤ right`, `y ≤ up` only
when the boundary widths are integers, as the counterexample shows). -/
theorem generateInternalKnots_count_and_range (lB rB dB uB : ℚ) (kc : ℕ) (rand : ℕ → ℚ)
    (hlr : lB ≤ rB) (hdu : dB ≤ uB) (hrand : ∀ i, 0 ≤ rand i ∧ rand i < 1) :
    ∃ ks, generateInternalKnots lB rB dB uB (kc : ℚ) rand = .ok ks ∧
      ks.length = kc ∧
      ∀ p ∈ ks, lB ≤ p.x ∧ p.x < rB + 1 ∧ dB ≤ p.y ∧ p.y < uB + 1 := by
  have hcond : ((kc : ℚ)).den = 1 ∧ 0 ≤ (kc : ℚ) := ⟨Rat.den_natCast kc, by positivity⟩
  have hnum : ((kc : ℚ)).num.toNat = kc := by
    rw [Rat.num_natCast]
    exact Int.toNat_natCast kc
  refine ⟨_, generateInternalKnots_ok hlr hdu (kc : ℚ) rand, ?_, ?_⟩
  · rw [if_pos hcond, hnum]
    simp
  · intro p hp
    rw [List.mem_map] at hp
    obtain ⟨i, _, rfl⟩ := hp
    dsimp only
    have hx := jsFloor_unit_mul_bounds (hrand (2 * i)).1 (hrand (2 * i)).2
      (by linarith : (1 : ℚ) ≤ rB - lB + 1)
    have hy := jsFloor_unit_mul_bounds (hrand (2 * i + 1)).1 (hrand (2 * i + 1)).2
      (by linarith : (1 : ℚ) ≤ uB - dB + 1)
    refine ⟨by linarith [hx.1], by linarith [hx.2], by linarith [hy.1], by linarith [hy.2]⟩

/-- Witness for the amended C6 at boundaries `[0,10]×[0,10]`, one knot, and
the all-zeros draw stream. -/
theorem generateInternalKnots_count_and_range_witness :
    (0 : ℚ) ≤ 10 ∧ (∀ i : ℕ, 0 ≤ (fun _ : ℕ => (0 : ℚ)) i ∧ (fun _ : ℕ => (0 : ℚ)) i < 1) ∧
      ∃ ks, generateInternalKnots 0 10 0 10 ((1 : ℕ) : ℚ) (fun _ => 0) = .ok ks ∧
        ks.length = 1 ∧
        ∀ p ∈ ks, (0 : ℚ) ≤ p.x ∧ p.x < 10 + 1 ∧ (0 : ℚ) ≤ p.y ∧ p.y < 10 + 1 :=
  ⟨by norm_num, fun i => ⟨le_refl 0, by norm_num⟩,
    generateInternalKnots_count_and_range 0 10 0 10 1 (fun _ => 0) (by norm_num) (by norm_num)
      (fun i => ⟨le_refl 0, by norm_num⟩)⟩

/-! ## Distortion -/

lemma distortPoints_ok {fr : ℚ} (h0 : 0 ≤ fr) (h1 : fr ≤ 1) (points : List Vec)
    (m sd : ℚ) (coin noise : ℕ → ℚ) :
    distortPoints points m sd fr coin noise =
      .ok ([points.getD 0 P0] ++
        ((List.range (points.length - 2)).map fun j =>
          ⟨(points.getD (j + 1) P0).x,
            (points.getD (j + 1) P0).y +
              if coin (j + 1) < fr then noise (j + 1) * sd + m else 0⟩) ++
        [points.getD (points.length - 1) P0]) := by
  unfold distortPoints
  rw [if_neg (by push_neg; exact ⟨h0, h1⟩)]

lemma distortList_getD (a b : Vec) (g : ℕ → Vec) (k i : ℕ) (hik : i < k + 2) :
    ([a] ++ (List.range k).map g ++ [b]).getD i P0 =
      if i = 0 then a else if i = k + 1 then b else g (i - 1) := by
  have hlen : ([a] ++ (List.range k).map g).length = 1 + k := by
    simp only [List.length_append, List.length_cons, List.length_nil, List.length_map,
      List.length_range]
  by_cases h0 : i = 0
  · subst h0
    rw [if_pos rfl, List.getD_append _ _ _ _ (by omega), List.getD_append _ _ _ _ (by simp)]
    rfl
  · by_cases h1 : i = k + 1
    · subst h1
      rw [if_neg h0, if_pos rfl, List.getD_append_right _ _ _ _ (by omega)]
      have h2 : k + 1 - ([a] ++ (List.range k).map g).length = 0 := by omega
      rw [h2]
      rfl
    · rw [if_neg h0, if_neg h1, List.getD_append _ _ _ _ (by omega),
        List.getD_append_right _ _ _ _ (by simp only [List.length_cons, List.length_nil]; omega)]
      have h2 : i - ([a] : List Vec).length = i - 1 := by
        simp only [List.length_cons, List.length_nil]
      rw [h2, getD_range_map _ (by omega)]

lemma distortPoints_spec_aux (points : List Vec) (m sd fr : ℚ)
    (coin noise : ℕ → ℚ) (h0 : 0 ≤ fr) (h1 : fr ≤ 1) (hlen : 2 ≤ points.length) :
    ∃ out, distortPoints points m sd fr coin noise = .ok out ∧
      out.length = points.length ∧
      (∀ i, i < points.length → (out.getD i P0).x = (points.getD i P0).x) ∧
      out.getD 0 P0 = points.getD 0 P0 ∧
      out.getD (points.length - 1) P0 = points.getD (points.length - 1) P0 := by
  refine ⟨_, distortPoints_ok h0 h1 points m sd coin noise, ?_, ?_, ?_, ?_⟩
  · simp only [List.length_append, List.length_cons, List.length_nil, List.length_map,
      List.length_range]
    omega
  · intro i hi
    rw [distortList_getD _ _ _ _ _ (by omega)]
    by_cases hi0 : i = 0
    · rw [if_pos hi0, hi0]
    · by_cases hil : i = points.length - 2 + 1
      · rw [if_neg hi0, if_pos hil, hil]
        have h2 : points.length - 2 + 1 = points.length - 1 := by omega
        rw [h2]
      · rw [if_neg hi0, if_neg hil]
        have h2 : i - 1 + 1 = i := by omega
        rw [h2]
  · rw [distortList_getD _ _ _ _ _ (by omega), if_pos rfl]
  · rw [distortList_getD _ _ _ _ _ (by omega), if_neg (by omega), if_pos (by omega)]

/-- C8: for every point list (with at least the two endpoints), every mean,
standard deviation, in-range frequency and every outcome of the coin and
Box-Muller draws, `distortPoints` preserves the x-coordinate of every point
and keeps the first and last points unchanged in both coordinates. -/
theorem distortPoints_x_and_endpoints (points : List Vec) (m sd fr : ℚ)
    (coin noise : ℕ → ℚ) (h0 : 0 ≤ fr) (h1 : fr ≤ 1) (hlen : 2 ≤ points.length) :
    ∃ out, distortPoints points m sd fr coin noise = .ok out ∧
      out.length = points.length ∧
      (∀ i, i < points.length → (out.getD i P0).x = (points.getD i P0).x) ∧
      out.getD 0 P0 = points.getD 0 P0 ∧
      out.getD (points.length - 1) P0 = points.getD (points.length - 1) P0 :=
  distortPoints_spec_aux points m sd fr coin noise h0 h1 hlen

/-- Witness for C8 on three collinear points with frequency 1 and the
all-zeros draw streams. -/
theorem distortPoints_x_and_endpoints_witness :
    (0 : ℚ) ≤ 1 ∧ (1 : ℚ) ≤ 1 ∧
      2 ≤ ([⟨0, 0⟩, ⟨1, 1⟩, ⟨2, 2⟩] : List Vec).length ∧
      ∃ out, distortPoints [⟨0, 0⟩, ⟨1, 1⟩, ⟨2, 2⟩] 1 1 1 (fun _ => 0) (fun _ => 0) = .ok out ∧
        out.length = ([⟨0, 0⟩, ⟨1, 1⟩, ⟨2, 2⟩] : List Vec).length ∧
        (∀ i, i < ([⟨0, 0⟩, ⟨1, 1⟩, ⟨2, 2⟩] : List Vec).length →
          (out.getD i P0).x = (([⟨0, 0⟩, ⟨1, 1⟩, ⟨2, 2⟩] : List Vec).getD i P0).x) ∧
        out.getD 0 P0 = ([⟨0, 0⟩, ⟨1, 1⟩, ⟨2, 2⟩] : List Vec).getD 0 P0 ∧
        out.getD (([⟨0, 0⟩, ⟨1, 1⟩, ⟨2, 2⟩] : List Vec).length - 1) P0 =
          ([⟨0, 0⟩, ⟨1, 1⟩, ⟨2, 2⟩] : List Vec).getD
            (([⟨0, 0⟩, ⟨1, 1⟩, ⟨2, 2⟩] : List Vec).length - 1) P0 :=
  ⟨by norm_num, by norm_num, by decide,
    distortPoints_x_and_endpoints [⟨0, 0⟩, ⟨1, 1⟩, ⟨2, 2⟩] 1 1 1 (fun _ => 0) (fun _ => 0)
      (by norm_num) (by norm_num) (by decide)⟩

/-! ## Temporal resampling -/

lemma num_toNat_cast_eq {tp : ℚ} (hden : tp.den = 1) (h2 : 2 ≤ tp) :
    ((tp.num.toNat : ℚ)) = tp ∧ 2 ≤ tp.num.toNat := by
  have hnum : ((tp.num : ℚ)) = tp := Rat.coe_int_num_of_den_eq_one hden
  have h2' : (2 : ℤ) ≤ tp.num := by
    have : ((2 : ℤ) : ℚ) ≤ ((tp.num : ℚ)) := by rw [hnum]; exact_mod_cast h2
    exact_mod_cast this
  have htn : ((tp.num.toNat : ℤ)) = tp.num := Int.toNat_of_nonneg (by omega)
  constructor
  · rw [← hnum]
    exact_mod_cast congrArg (fun z : ℤ => ((z : ℚ))) htn
  · omega

lemma tweenPoints_spec_aux (points : List Vec) (tween : ℚ → ℚ) (tp : ℚ)
    (hden : tp.den = 1) (h2 : 2 ≤ tp) :
    ((points.length : ℚ) ≤ tp → tweenPoints points tween tp = .ok points) ∧
    (tp < (points.length : ℚ) →
      ∃ out, tweenPoints points tween tp = .ok out ∧
        out.length = tp.num.toNat ∧
        out.getD 0 P0 = points.getD 0 P0 ∧
        out.getD (tp.num.toNat - 1) P0 = points.getD (points.length - 1) P0) := by
  obtain ⟨hcast, h2n⟩ := num_toNat_cast_eq hden h2
  constructor
  · intro hle
    unfold tweenPoints
    rw [if_neg (not_not_intro ⟨hden, h2⟩), if_pos hle]
  · intro hgt
    unfold tweenPoints
    rw [if_neg (not_not_intro ⟨hden, h2⟩), if_neg (not_le.2 hgt)]
    refine ⟨_, rfl, by simp, ?_, ?_⟩
    · rw [getD_range_map _ (by omega)]
      rw [if_pos rfl, headD_eq_getD_zero]
    · rw [getD_range_map _ (by omega)]
      rw [if_neg (by omega), if_pos rfl, getLastD_eq_getD]

/-- C4: for every point list, tween and integer `targetPoints ≥ 2`:
if `M ≤ targetPoints` the list is returned unchanged (identity law);
if `M > targetPoints` exactly `targetPoints` points come back, whose first and
last elements are verbatim copies of the input's first and last elements. -/
theorem tweenPoints_identity_and_resample (points : List Vec) (tween : ℚ → ℚ) (tp : ℚ)
    (hden : tp.den = 1) (h2 : 2 ≤ tp) :
    ((points.length : ℚ) ≤ tp → tweenPoints points tween tp = .ok points) ∧
    (tp < (points.length : ℚ) →
      ∃ out, tweenPoints points tween tp = .ok out ∧
        out.length = tp.num.toNat ∧
        out.getD 0 P0 = points.getD 0 P0 ∧
        out.getD (tp.num.toNat - 1) P0 = points.getD (points.length - 1) P0) :=
  tweenPoints_spec_aux points tween tp hden h2

/-- Witness for C4 at three points and `targetPoints = 5` (identity branch
applies; the resample branch is vacuous at this input). -/
theorem tweenPoints_identity_and_resample_witness :
    ((5 : ℚ)).den = 1 ∧ (2 : ℚ) ≤ 5 ∧
      ((([⟨0, 0⟩, ⟨1, 1⟩, ⟨2, 2⟩] : List Vec).length : ℚ) ≤ 5 →
        tweenPoints [⟨0, 0⟩, ⟨1, 1⟩, ⟨2, 2⟩] easeOutQuad 5 = .ok [⟨0, 0⟩, ⟨1, 1⟩, ⟨2, 2⟩]) ∧
      ((5 : ℚ) < (([⟨0, 0⟩, ⟨1, 1⟩, ⟨2, 2⟩] : List Vec).length : ℚ) →
        ∃ out, tweenPoints [⟨0, 0⟩, ⟨1, 1⟩, ⟨2, 2⟩] easeOutQuad 5 = .ok out ∧
          out.length = ((5 : ℚ)).num.toNat ∧
          out.getD 0 P0 = ([⟨0, 0⟩, ⟨1, 1⟩, ⟨2, 2⟩] : List Vec).getD 0 P0 ∧
          out.getD (((5 : ℚ)).num.toNat - 1) P0 =
            ([⟨0, 0⟩, ⟨1, 1⟩, ⟨2, 2⟩] : List Vec).getD
              (([⟨0, 0⟩, ⟨1, 1⟩, ⟨2, 2⟩] : List Vec).length - 1) P0) :=
  ⟨by norm_num, by norm_num,
    (tweenPoints_identity_and_resample _ easeOutQuad 5 (by norm_num) (by norm_num)).1,
    (tweenPoints_identity_and_resample _ easeOutQuad 5 (by norm_num) (by norm_num)).2⟩

/-! ## End-to-end pipeline -/

lemma getLastD_cons_concat (a b : Vec) (l : List Vec) :
    (a :: (l ++ [b])).getLastD P0 = b := by
  rw [getLastD_eq_getD]
  have hlen : (a :: (l ++ [b])).length - 1 = l.length + 1 := by simp
  rw [hlen, List.getD_cons_succ, List.getD_append_right _ _ _ _ (le_refl _)]
  rw [Nat.sub_self]
  rfl

lemma calc_endpoints_aux {n : ℕ} (hn : 2 ≤ n) (points : List Vec) :
    ∃ out, calculatePointsInCurve n points = .ok out ∧
      out.length = n ∧
      out.getD 0 P0 = points.headD P0 ∧
      out.getD (n - 1) P0 = points.getLastD P0 := by
  refine ⟨_, calculatePointsInCurve_ok hn points, by simp, ?_, ?_⟩
  · rw [getD_range_map _ (by omega)]
    rw [if_pos rfl]
  · rw [getD_range_map _ (by omega)]
    rw [if_neg (by omega), if_pos rfl]

lemma generatePoints_spec_aux (fromP toP : Vec) (ks : List Vec) :
    ∃ out, generatePoints fromP toP ks = .ok out ∧
      out.length = max (distFloor fromP toP) 50 ∧
      out.getD 0 P0 = fromP ∧
      out.getD (out.length - 1) P0 = toP := by
  have hM2 : 2 ≤ max (distFloor fromP toP) 50 := le_trans (by norm_num) (le_max_right _ _)
  obtain ⟨out, hout, hlen, hhead, hlast⟩ := calc_endpoints_aux hM2 (fromP :: (ks ++ [toP]))
  refine ⟨out, hout, hlen, ?_, ?_⟩
  · rw [hhead]
    rfl
  · rw [hlen, hlast, getLastD_cons_concat]

/-- Shared pipeline fact: under the validation conditions the pipeline
succeeds; the output keeps the exact endpoints and has length
`min (max ⌊distance⌋ 50) targetPoints`. -/
lemma generateCurve_ok_spec (fromP toP : Vec) (o : HumanCurveOptions)
    (randKnots coin noise : ℕ → ℚ) (h : ValidCurveInputs fromP toP o) :
    ∃ ps, generateCurve fromP toP o randKnots coin noise = .ok ps ∧
      2 ≤ ps.length ∧
      ps.length = min (max (distFloor fromP toP) 50) (effTarget o).num.toNat ∧
      ps.getD 0 P0 = fromP ∧
      ps.getD (ps.length - 1) P0 = toP := by
  obtain ⟨hlr, hdu, hf0, hf1, hden, h2⟩ := h
  obtain ⟨hcast, h2n⟩ := num_toNat_cast_eq hden h2
  have hknots := generateInternalKnots_ok hlr hdu (effKnots o) randKnots
  obtain ⟨ps1, hgen, hlen1, hhead1, hlast1⟩ := generatePoints_spec_aux fromP toP
    ((List.range (if (effKnots o).den = 1 ∧ 0 ≤ effKnots o
        then (effKnots o).num.toNat else 0)).map fun i =>
      { x := jsFloor (randKnots (2 * i) * (effRight fromP toP o - effLeft fromP toP o + 1)) +
          effLeft fromP toP o
        y := jsFloor (randKnots (2 * i + 1) * (effUp fromP toP o - effDown fromP toP o + 1)) +
          effDown fromP toP o })
  have hlen1_2 : 2 ≤ ps1.length := by
    rw [hlen1]
    exact le_trans (by norm_num) (le_max_right _ _)
  obtain ⟨ps2, hdist, hlen2, _, hhead2, hlast2⟩ :=
    distortPoints_spec_aux ps1 (effMean o) (effStDev o) (effFreq o) coin noise hf0 hf1 hlen1_2
  obtain ⟨hid, hres⟩ := tweenPoints_spec_aux ps2 (effTween o) (effTarget o) hden h2
  by_cases hle : (ps2.length : ℚ) ≤ effTarget o
  · have hlen_le : ps2.length ≤ (effTarget o).num.toNat := by
      rw [← hcast] at hle
      exact_mod_cast hle
    refine ⟨ps2, ?_, by omega, ?_, ?_, ?_⟩
    · unfold generateCurve
      rw [hknots]
      dsimp only
      rw [hgen]
      dsimp only
      rw [hdist]
      dsimp only
      exact hid hle
    · rw [hlen2, hlen1]
      omega
    · rw [hhead2, hhead1]
    · rw [hlen2, hlast2]
      exact hlast1
  · push_neg at hle
    have hlen_gt : (effTarget o).num.toNat < ps2.length := by
      rw [← hcast] at hle
      exact_mod_cast hle
    obtain ⟨out, hout, hlenout, hheadout, hlastout⟩ := hres hle
    refine ⟨out, ?_, by omega, ?_, ?_, ?_⟩
    · unfold generateCurve
      rw [hknots]
      dsimp only
      rw [hgen]
      dsimp only
      rw [hdist]
      dsimp only
      exact hout
    · rw [hlenout, hlen2, hlen1] at *
      omega
    · rw [hheadout, hhead2, hhead1]
    · rw [hlenout, hlastout, hlen2, hlast2]
      exact hlast1

/-- C1: for every origin/destination and every options bundle passing the
pipeline's validation, the trajectory succeeds, and its first point equals the
origin and its last point equals the destination exactly, for every outcome of
the knot, coin and noise draws. -/
theorem generateCurve_endpoints_exact (fromP toP : Vec) (o : HumanCurveOptions)
    (randKnots coin noise : ℕ → ℚ) (h : ValidCurveInputs fromP toP o) :
    ∃ ps, generateCurve fromP toP o randKnots coin noise = .ok ps ∧
      2 ≤ ps.length ∧
      ps.getD 0 P0 = fromP ∧
      ps.getD (ps.length - 1) P0 = toP := by
  obtain ⟨ps, h1, h2, _, h4, h5⟩ :=
    generateCurve_ok_spec fromP toP o randKnots coin noise h
  exact ⟨ps, h1, h2, h4, h5⟩

/-- Witness for C1: origin `(0,0)`, destination `(3,4)`, default options,
all-zeros draws. -/
theorem generateCurve_endpoints_exact_witness :
    ValidCurveInputs ⟨0, 0⟩ ⟨3, 4⟩ {} ∧
      ∃ ps, generateCurve ⟨0, 0⟩ ⟨3, 4⟩ {} (fun _ => 0) (fun _ => 0) (fun _ => 0) = .ok ps ∧
        2 ≤ ps.length ∧
        ps.getD 0 P0 = ⟨0, 0⟩ ∧
        ps.getD (ps.length - 1) P0 = ⟨3, 4⟩ :=
  ⟨by constructor <;> norm_num [ValidCurveInputs, effLeft, effRight, effDown, effUp, effFreq,
      effTarget],
    generateCurve_endpoints_exact ⟨0, 0⟩ ⟨3, 4⟩ {} (fun _ => 0) (fun _ => 0) (fun _ => 0)
      (by constructor <;> norm_num [ValidCurveInputs, effLeft, effRight, effDown, effUp, effFreq,
        effTarget])⟩

lemma generateInternalKnots_coerce (l r d u : ℚ) (kc : ℚ) (rand : ℕ → ℚ)
    (hkc : ¬(kc.den = 1 ∧ 0 ≤ kc)) :
    generateInternalKnots l r d u kc rand = generateInternalKnots l r d u 0 rand := by
  unfold generateInternalKnots
  rw [if_neg hkc, if_pos (⟨by norm_num, le_refl (0 : ℚ)⟩ : ((0 : ℚ)).den = 1 ∧ (0 : ℚ) ≤ 0)]
  norm_num

/-- C3: the trajectory pipeline raises an error exactly when a validation
condition fails (ordered boundaries, `distortionFrequency ∈ [0,1]`, integer
`targetPoints ≥ 2`; the "non-numeric" conditions of the source cannot occur
over `ℚ`), and a non-integer or negative `knotsCount` is coerced to `0`,
never raising. -/
theorem generateCurve_error_iff (fromP toP : Vec) (o : HumanCurveOptions)
    (randKnots coin noise : ℕ → ℚ) :
    ((∃ e, generateCurve fromP toP o randKnots coin noise = .error e) ↔
      ¬ ValidCurveInputs fromP toP o) ∧
    (∀ kc : ℚ, ¬(kc.den = 1 ∧ 0 ≤ kc) →
      generateCurve fromP toP { o with knotsCount := some kc } randKnots coin noise =
        generateCurve fromP toP { o with knotsCount := some 0 } randKnots coin noise) := by
  constructor
  · constructor
    · rintro ⟨e, he⟩ hv
      obtain ⟨ps, hok, _⟩ := generateCurve_ok_spec fromP toP o randKnots coin noise hv
      rw [hok] at he
      exact Except.noConfusion he
    · intro hnv
      by_cases h1 : effLeft fromP toP o ≤ effRight fromP toP o
      · by_cases h2 : effDown fromP toP o ≤ effUp fromP toP o
        · obtain ⟨ks, hknots⟩ : ∃ ks, generateInternalKnots (effLeft fromP toP o)
              (effRight fromP toP o) (effDown fromP toP o) (effUp fromP toP o)
              (effKnots o) randKnots = .ok ks :=
            ⟨_, generateInternalKnots_ok h1 h2 (effKnots o) randKnots⟩
          obtain ⟨ps1, hgen, hlen1, _, _⟩ := generatePoints_spec_aux fromP toP ks
          by_cases h3 : 0 ≤ effFreq o
          · by_cases h4 : effFreq o ≤ 1
            · have h5 : ¬((effTarget o).den = 1 ∧ 2 ≤ effTarget o) := by
                intro hc
                exact hnv ⟨h1, h2, h3, h4, hc.1, hc.2⟩
              have hdist := distortPoints_ok h3 h4 ps1 (effMean o) (effStDev o) coin noise
              refine ⟨"target_points must be an integer greater or equal to 2", ?_⟩
              unfold generateCurve
              rw [hknots]
              dsimp only
              rw [hgen]
              dsimp only
              rw [hdist]
              dsimp only
              unfold tweenPoints
              rw [if_pos h5]
            · have hdist : distortPoints ps1 (effMean o) (effStDev o) (effFreq o) coin noise =
                  .error "distortion_frequency must be in range [0,1]" := by
                unfold distortPoints
                rw [if_pos (Or.inr (not_le.1 h4))]
              refine ⟨"distortion_frequency must be in range [0,1]", ?_⟩
              unfold generateCurve
              rw [hknots]
              dsimp only
              rw [hgen]
              dsimp only
              rw [hdist]
          · have hdist : distortPoints ps1 (effMean o) (effStDev o) (effFreq o) coin noise =
                .error "distortion_frequency must be in range [0,1]" := by
              unfold distortPoints
              rw [if_pos (Or.inl (not_le.1 h3))]
            refine ⟨"distortion_frequency must be in range [0,1]", ?_⟩
            unfold generateCurve
            rw [hknots]
            dsimp only
            rw [hgen]
            dsimp only
            rw [hdist]
        · have hknots : generateInternalKnots (effLeft fromP toP o) (effRight fromP toP o)
              (effDown fromP toP o) (effUp fromP toP o) (effKnots o) randKnots =
              .error "down_boundary must be less than or equal to upper_boundary" := by
            unfold generateInternalKnots
            rw [if_neg (not_lt.2 h1), if_pos (not_le.1 h2)]
          refine ⟨"down_boundary must be less than or equal to upper_boundary", ?_⟩
          unfold generateCurve
          rw [hknots]
      · have hknots : generateInternalKnots (effLeft fromP toP o) (effRight fromP toP o)
            (effDown fromP toP o) (effUp fromP toP o) (effKnots o) randKnots =
            .error "left_boundary must be less than or equal to right_boundary" := by
          unfold generateInternalKnots
          rw [if_pos (not_le.1 h1)]
        refine ⟨"left_boundary must be less than or equal to right_boundary", ?_⟩
        unfold generateCurve
        rw [hknots]
  · intro kc hkc
    unfold generateCurve
    have hscrut : generateInternalKnots (effLeft fromP toP { o with knotsCount := some kc })
        (effRight fromP toP { o with knotsCount := some kc })
        (effDown fromP toP { o with knotsCount := some kc })
        (effUp fromP toP { o with knotsCount := some kc })
        (effKnots { o with knotsCount := some kc }) randKnots =
        generateInternalKnots (effLeft fromP toP { o with knotsCount := some 0 })
          (effRight fromP toP { o with knotsCount := some 0 })
          (effDown fromP toP { o with knotsCount := some 0 })
          (effUp fromP toP { o with knotsCount := some 0 })
          (effKnots { o with knotsCount := some 0 }) randKnots := by
      show generateInternalKnots (effLeft fromP toP o) (effRight fromP toP o)
          (effDown fromP toP o) (effUp fromP toP o) kc randKnots =
        generateInternalKnots (effLeft fromP toP o) (effRight fromP toP o)
          (effDown fromP toP o) (effUp fromP toP o) 0 randKnots
      exact generateInternalKnots_coerce _ _ _ _ kc randKnots hkc
    rw [hscrut]
    rfl

/-- Witness for C3: at `(0,0) → (3,4)` with default options, the coercion
branch applies for the invalid `knotsCount = -1`. -/
theorem generateCurve_error_iff_witness :
    ((∃ e, generateCurve ⟨0, 0⟩ ⟨3, 4⟩ {} (fun _ => 0) (fun _ => 0) (fun _ => 0) = .error e) ↔
      ¬ ValidCurveInputs ⟨0, 0⟩ ⟨3, 4⟩ {}) ∧
    generateCurve ⟨0, 0⟩ ⟨3, 4⟩ { knotsCount := some (-1) }
        (fun _ => 0) (fun _ => 0) (fun _ => 0) =
      generateCurve ⟨0, 0⟩ ⟨3, 4⟩ { knotsCount := some 0 }
        (fun _ => 0) (fun _ => 0) (fun _ => 0) :=
  ⟨(generateCurve_error_iff ⟨0, 0⟩ ⟨3, 4⟩ {} (fun _ => 0) (fun _ => 0) (fun _ => 0)).1,
    (generateCurve_error_iff ⟨0, 0⟩ ⟨3, 4⟩ {} (fun _ => 0) (fun _ => 0) (fun _ => 0)).2 (-1)
      (by norm_num)⟩

/-! ## Length of the produced sequence -/

lemma num_toNat_int_eq {tp : ℚ} (hden : tp.den = 1) (h2 : 2 ≤ tp) :
    ((tp.num.toNat : ℤ)) = tp.num := by
  have hnum : ((tp.num : ℚ)) = tp := Rat.coe_int_num_of_den_eq_one hden
  have h2' : (2 : ℤ) ≤ tp.num := by
    have h : ((2 : ℤ) : ℚ) ≤ ((tp.num : ℚ)) := by
      rw [hnum]
      exact_mod_cast h2
    exact_mod_cast h
  exact Int.toNat_of_nonneg (by omega)

/-- The exact rational computation `Nat.sqrt ⌊q⌋₊` agrees with the floor of
the real square root, so the model's `distFloor` is `Math.floor(Math.sqrt _)`. -/
lemma int_floor_sqrt_ratCast (q : ℚ) (hq : 0 ≤ q) :
    ⌊Real.sqrt ((q : ℝ))⌋ = (Nat.sqrt ⌊q⌋₊ : ℤ) := by
  rw [Int.floor_eq_iff]
  constructor
  · have h1 : ((Nat.sqrt ⌊q⌋₊ : ℝ)) ^ 2 ≤ ((⌊q⌋₊ : ℝ)) := by
      exact_mod_cast Nat.sqrt_le' ⌊q⌋₊
    have h2 : ((⌊q⌋₊ : ℝ)) ≤ (q : ℝ) := by
      have h := Nat.floor_le hq
      exact_mod_cast h
    have h3 := Real.le_sqrt_of_sq_le (le_trans h1 h2)
    push_cast
    exact_mod_cast h3
  · have ha : (q : ℝ) < (⌊q⌋₊ : ℝ) + 1 := by
      have h := Nat.lt_floor_add_one q
      exact_mod_cast h
    have hb : (⌊q⌋₊ : ℕ) + 1 ≤ (Nat.sqrt ⌊q⌋₊ + 1) ^ 2 := by
      have h := Nat.lt_succ_sqrt' ⌊q⌋₊
      rw [Nat.succ_eq_add_one] at h
      omega
    have hb' : ((⌊q⌋₊ : ℝ)) + 1 ≤ ((Nat.sqrt ⌊q⌋₊ : ℝ) + 1) ^ 2 := by
      exact_mod_cast hb
    have h3 : (q : ℝ) < ((Nat.sqrt ⌊q⌋₊ : ℝ) + 1) ^ 2 := lt_of_lt_of_le ha hb'
    have h4 := (Real.sqrt_lt' (by positivity)).2 h3
    push_cast
    exact_mod_cast h4

/-- C10: for valid inputs the produced sequence has length
`min (max ⌊‖destination - origin‖⌋ 50) targetPoints`, hence at least 2. -/
theorem generateCurve_length_formula (fromP toP : Vec) (o : HumanCurveOptions)
    (randKnots coin noise : ℕ → ℚ) (h : ValidCurveInputs fromP toP o) :
    ∃ ps, generateCurve fromP toP o randKnots coin noise = .ok ps ∧
      (ps.length : ℤ) =
        min (max ⌊Real.sqrt (((distSq fromP toP : ℚ) : ℝ))⌋ 50) (effTarget o).num ∧
      2 ≤ ps.length := by
  obtain ⟨ps, hok, h2, hlen, _, _⟩ := generateCurve_ok_spec fromP toP o randKnots coin noise h
  refine ⟨ps, hok, ?_, h2⟩
  rw [hlen]
  have hq : 0 ≤ distSq fromP toP := by
    unfold distSq
    positivity
  rw [int_floor_sqrt_ratCast _ hq]
  have hnum := num_toNat_int_eq h.2.2.2.2.1 h.2.2.2.2.2
  rw [← hnum]
  push_cast [distFloor]
  rfl

/-- Witness for C10 at `(0,0) → (3,4)` (true distance 5) with default
options. -/
theorem generateCurve_length_formula_witness :
    ValidCurveInputs ⟨0, 0⟩ ⟨3, 4⟩ {} ∧
      ∃ ps, generateCurve ⟨0, 0⟩ ⟨3, 4⟩ {} (fun _ => 0) (fun _ => 0) (fun _ => 0) = .ok ps ∧
        (ps.length : ℤ) =
          min (max ⌊Real.sqrt (((distSq ⟨0, 0⟩ ⟨3, 4⟩ : ℚ) : ℝ))⌋ 50) (effTarget {}).num ∧
        2 ≤ ps.length :=
  ⟨by constructor <;> norm_num [ValidCurveInputs, effLeft, effRight, effDown, effUp, effFreq,
      effTarget],
    generateCurve_length_formula ⟨0, 0⟩ ⟨3, 4⟩ {} (fun _ => 0) (fun _ => 0) (fun _ => 0)
      (by constructor <;> norm_num [ValidCurveInputs, effLeft, effRight, effDown, effUp, effFreq,
        effTarget])⟩

/-! ## Parameter generation -/

lemma gRCP_offsetBoundaryX (dist : ℚ) (u : ℕ → ℚ) :
    (generateRandomCurveParameters dist u).offsetBoundaryX =
      max (randomFromRange
        (weightedRandomChoice [RangeQ.mk 20 44, RangeQ.mk 45 74, RangeQ.mk 75 99]
          [0.2, 0.65, 15] (u 1) (RangeQ.mk 0 0)).min
        (weightedRandomChoice [RangeQ.mk 20 44, RangeQ.mk 45 74, RangeQ.mk 75 99]
          [0.2, 0.65, 15] (u 1) (RangeQ.mk 0 0)).max (u 2))
      (max 30 (dist * 0.15)) := rfl

lemma gRCP_offsetBoundaryY (dist : ℚ) (u : ℕ → ℚ) :
    (generateRandomCurveParameters dist u).offsetBoundaryY =
      max (randomFromRange
        (weightedRandomChoice [RangeQ.mk 20 44, RangeQ.mk 45 74, RangeQ.mk 75 99]
          [0.2, 0.65, 15] (u 3) (RangeQ.mk 0 0)).min
        (weightedRandomChoice [RangeQ.mk 20 44, RangeQ.mk 45 74, RangeQ.mk 75 99]
          [0.2, 0.65, 15] (u 3) (RangeQ.mk 0 0)).max (u 4))
      (max 30 (dist * 0.15)) := rfl

lemma gRCP_knotsCount (dist : ℚ) (u : ℕ → ℚ) :
    (generateRandomCurveParameters dist u).knotsCount =
      max (weightedRandomChoice [1, 2, 3, 4, 5, 6, 7, 8, 9, 10]
        [0.15, 0.36, 0.17, 0.12, 0.08, 0.04, 0.03, 0.02, 0.015, 0.005] (u 5) 0) 2 := rfl

lemma gRCP_distortionFrequency (dist : ℚ) (u : ℕ → ℚ) :
    (generateRandomCurveParameters dist u).distortionFrequency =
      randomFromRange 25 69 (u 8) / 100 := rfl

lemma gRCP_targetPoints (dist : ℚ) (u : ℕ → ℚ) :
    (generateRandomCurveParameters dist u).targetPoints =
      randomFromRange
        (weightedRandomChoice [RangeQ.mk 35 44, RangeQ.mk 45 59, RangeQ.mk 60 79]
          [0.53, 0.32, 0.15] (u 9) (RangeQ.mk 0 0)).min
        (weightedRandomChoice [RangeQ.mk 35 44, RangeQ.mk 45 59, RangeQ.mk 60 79]
          [0.53, 0.32, 0.15] (u 9) (RangeQ.mk 0 0)).max (u 10) := rfl

lemma wrcGo_mem {α : Type} (items : List α) (ws : List ℚ) (r : ℚ) (fb : α) :
    wrcGo items ws r fb ∈ items ∨ wrcGo items ws r fb = fb := by
  induction items generalizing ws r with
  | nil => exact Or.inr rfl
  | cons x xs ih =>
    cases ws with
    | nil =>
      simp only [wrcGo]
      rcases ih [] r with h | h
      · exact Or.inl (List.mem_cons_of_mem x h)
      · exact Or.inr h
    | cons w ws' =>
      simp only [wrcGo]
      by_cases hc : r - w ≤ 0
      · rw [if_pos hc]
        exact Or.inl (List.mem_cons_self x xs)
      · rw [if_neg hc]
        rcases ih ws' (r - w) with h | h
        · exact Or.inl (List.mem_cons_of_mem x h)
        · exact Or.inr h

lemma weightedRandomChoice_mem {α : Type} (items : List α) (ws : List ℚ) (u : ℚ) (dflt : α) :
    weightedRandomChoice items ws u dflt ∈ items ∨
      weightedRandomChoice items ws u dflt = items.getLastD dflt := by
  unfold weightedRandomChoice
  exact wrcGo_mem items ws (u * ws.sum) (items.getLastD dflt)

lemma randomFromRange_bounds (lo hi : ℚ) {u : ℚ} (hlod : lo.den = 1) (hhid : hi.den = 1)
    (h : lo ≤ hi) (hu0 : 0 ≤ u) (hu1 : u < 1) :
    lo ≤ randomFromRange lo hi u ∧ randomFromRange lo hi u ≤ hi ∧
      (randomFromRange lo hi u).den = 1 := by
  have hlonum : ((lo.num : ℚ)) = lo := Rat.coe_int_num_of_den_eq_one hlod
  have hhinum : ((hi.num : ℚ)) = hi := Rat.coe_int_num_of_den_eq_one hhid
  have hw : (1 : ℚ) ≤ hi - lo + 1 := by linarith
  obtain ⟨h0, h1⟩ := jsFloor_unit_mul_bounds hu0 hu1 hw
  have hup : ⌊u * (hi - lo + 1)⌋ ≤ hi.num - lo.num := by
    have h1' : ((⌊u * (hi - lo + 1)⌋ : ℚ)) < ((hi.num - lo.num + 1 : ℤ) : ℚ) := by
      rw [jsFloor] at h1
      push_cast
      rw [hlonum, hhinum]
      linarith
    have h1n : ⌊u * (hi - lo + 1)⌋ < hi.num - lo.num + 1 := by exact_mod_cast h1'
    omega
  refine ⟨?_, ?_, ?_⟩
  · unfold randomFromRange
    linarith
  · unfold randomFromRange
    have hupq : jsFloor (u * (hi - lo + 1)) ≤ ((hi.num - lo.num : ℤ) : ℚ) := by
      rw [jsFloor]
      exact_mod_cast hup
    push_cast at hupq
    rw [hlonum, hhinum] at hupq
    linarith
  · unfold randomFromRange
    rw [jsFloor, ← hlonum, ← Int.cast_add]
    exact Rat.den_intCast _

lemma wrc_offset_tier3 {u1 : ℚ} (h : 17/317 < u1) (hu : u1 < 1) :
    weightedRandomChoice [RangeQ.mk 20 44, RangeQ.mk 45 74, RangeQ.mk 75 99]
      [0.2, 0.65, 15] u1 (RangeQ.mk 0 0) = RangeQ.mk 75 99 := by
  unfold weightedRandomChoice
  have hsum : ([(0.2 : ℚ), 0.65, 15]).sum = 317/20 := by norm_num
  rw [hsum]
  simp only [wrcGo]
  rw [if_neg (not_le.2 (by nlinarith)), if_neg (not_le.2 (by nlinarith)),
    if_pos (by nlinarith)]

/-- C5 counterexample: for origin `(0,0)` and destination `(1000,0)` (distance
exactly 1000, so `minBoundary = 150`) the returned `offsetBoundaryX` is `150`,
outside `[75,99]` — here at the all-zeros draw, and `max base 150 > 99` for
every draw since the tier bases never exceed 99. -/
theorem offsetBoundaryX_band_counterexample :
    distSq ⟨0, 0⟩ ⟨1000, 0⟩ = 1000 ^ 2 ∧
    (generateRandomCurveParameters 1000 (fun _ => 0)).offsetBoundaryX = 150 ∧
    ¬((generateRandomCurveParameters 1000 (fun _ => 0)).offsetBoundaryX ≤ 99) := by
  have htier : weightedRandomChoice [RangeQ.mk 20 44, RangeQ.mk 45 74, RangeQ.mk 75 99]
      [0.2, 0.65, 15] 0 (RangeQ.mk 0 0) = RangeQ.mk 20 44 := by
    unfold weightedRandomChoice
    simp only [wrcGo]
    rw [if_pos (by norm_num)]
  have hX : (generateRandomCurveParameters 1000 (fun _ => 0)).offsetBoundaryX = 150 := by
    rw [gRCP_offsetBoundaryX, htier]
    have hrfr : randomFromRange (RangeQ.mk 20 44).min (RangeQ.mk 20 44).max 0 = 20 := by
      show randomFromRange 20 44 0 = 20
      unfold randomFromRange jsFloor
      norm_num
    rw [hrfr]
    have hprod : (1000 : ℚ) * 0.15 = 150 := by norm_num
    rw [hprod, max_eq_right (by norm_num : (30 : ℚ) ≤ 150),
      max_eq_right (by norm_num : (20 : ℚ) ≤ 150)]
  refine ⟨by norm_num [distSq], hX, ?_⟩
  rw [hX]
  norm_num

/-- C5 (amended): whenever the endpoint distance satisfies
`max 30 (0.15·distance) ≤ 99` (distance at most 660), `offsetBoundaryX` lands
in `[75,99]` for every tier draw above `17/317` — an event of probability
`300/317 ≈ 0.9465 ≥ 0.9` for a uniform draw — and every in-range inner draw.
For larger distances the `minBoundary` floor pushes `offsetBoundaryX` above
99 (see the counterexample). -/
theorem offsetBoundaryX_band (dist : ℚ) (u : ℕ → ℚ) (hd : 0 ≤ dist)
    (hmb : max 30 (dist * 0.15) ≤ 99)
    (hu1 : 17/317 < u 1) (hu1' : u 1 < 1) (hu2 : 0 ≤ u 2) (hu2' : u 2 < 1) :
    (9 : ℚ)/10 ≤ 1 - 17/317 ∧
    75 ≤ (generateRandomCurveParameters dist u).offsetBoundaryX ∧
    (generateRandomCurveParameters dist u).offsetBoundaryX ≤ 99 := by
  have hX : (generateRandomCurveParameters dist u).offsetBoundaryX =
      max (randomFromRange 75 99 (u 2)) (max 30 (dist * 0.15)) := by
    rw [gRCP_offsetBoundaryX, wrc_offset_tier3 hu1 hu1']
  obtain ⟨hlo, hhi, _⟩ := randomFromRange_bounds 75 99 rfl rfl (by norm_num) hu2 hu2'
  refine ⟨by norm_num, ?_, ?_⟩
  · rw [hX]
    exact le_trans hlo (le_max_left _ _)
  · rw [hX]
    exact max_le hhi hmb

/-- Witness for the amended C5 at `dist = 5`, tier draw `1/2`, inner draw
`0`. -/
theorem offsetBoundaryX_band_witness :
    (0 : ℚ) ≤ 5 ∧ max (30 : ℚ) (5 * 0.15) ≤ 99 ∧
      (17 : ℚ)/317 < 1/2 ∧ (1 : ℚ)/2 < 1 ∧
      ((9 : ℚ)/10 ≤ 1 - 17/317 ∧
        75 ≤ (generateRandomCurveParameters 5
          (fun i => if i = 1 then 1/2 else 0)).offsetBoundaryX ∧
        (generateRandomCurveParameters 5
          (fun i => if i = 1 then 1/2 else 0)).offsetBoundaryX ≤ 99) :=
  ⟨by norm_num, by rw [max_le_iff]; norm_num, by norm_num, by norm_num,
    offsetBoundaryX_band 5 (fun i => if i = 1 then 1/2 else 0) (by norm_num)
      (by rw [max_le_iff]; norm_num) (by norm_num) (by norm_num) (by norm_num) (by norm_num)⟩

lemma knots_choice_facts (u5 : ℚ) :
    (weightedRandomChoice [1, 2, 3, 4, 5, 6, 7, 8, 9, 10]
      [0.15, 0.36, 0.17, 0.12, 0.08, 0.04, 0.03, 0.02, 0.015, 0.005] u5 (0 : ℚ)).den = 1 ∧
    1 ≤ weightedRandomChoice [1, 2, 3, 4, 5, 6, 7, 8, 9, 10]
      [0.15, 0.36, 0.17, 0.12, 0.08, 0.04, 0.03, 0.02, 0.015, 0.005] u5 (0 : ℚ) ∧
    weightedRandomChoice [1, 2, 3, 4, 5, 6, 7, 8, 9, 10]
      [0.15, 0.36, 0.17, 0.12, 0.08, 0.04, 0.03, 0.02, 0.015, 0.005] u5 (0 : ℚ) ≤ 10 := by
  have hmem : weightedRandomChoice [1, 2, 3, 4, 5, 6, 7, 8, 9, 10]
      [0.15, 0.36, 0.17, 0.12, 0.08, 0.04, 0.03, 0.02, 0.015, 0.005] u5 (0 : ℚ) ∈
      ([1, 2, 3, 4, 5, 6, 7, 8, 9, 10] : List ℚ) := by
    rcases weightedRandomChoice_mem [1, 2, 3, 4, 5, 6, 7, 8, 9, 10]
        [0.15, 0.36, 0.17, 0.12, 0.08, 0.04, 0.03, 0.02, 0.015, 0.005] u5 (0 : ℚ) with h | h
    · exact h
    · have hlast : (([1, 2, 3, 4, 5, 6, 7, 8, 9, 10] : List ℚ)).getLastD 0 = 10 := rfl
      rw [h, hlast]
      simp
  simp only [List.mem_cons, List.not_mem_nil, or_false] at hmem
  rcases hmem with h | h | h | h | h | h | h | h | h | h <;> rw [h] <;>
    refine ⟨rfl, by norm_num, by norm_num⟩

lemma target_choice_facts (u9 : ℚ) {u10 : ℚ} (hu0 : 0 ≤ u10) (hu1 : u10 < 1) :
    (randomFromRange
      (weightedRandomChoice [RangeQ.mk 35 44, RangeQ.mk 45 59, RangeQ.mk 60 79]
        [0.53, 0.32, 0.15] u9 (RangeQ.mk 0 0)).min
      (weightedRandomChoice [RangeQ.mk 35 44, RangeQ.mk 45 59, RangeQ.mk 60 79]
        [0.53, 0.32, 0.15] u9 (RangeQ.mk 0 0)).max u10).den = 1 ∧
    35 ≤ randomFromRange
      (weightedRandomChoice [RangeQ.mk 35 44, RangeQ.mk 45 59, RangeQ.mk 60 79]
        [0.53, 0.32, 0.15] u9 (RangeQ.mk 0 0)).min
      (weightedRandomChoice [RangeQ.mk 35 44, RangeQ.mk 45 59, RangeQ.mk 60 79]
        [0.53, 0.32, 0.15] u9 (RangeQ.mk 0 0)).max u10 ∧
    randomFromRange
      (weightedRandomChoice [RangeQ.mk 35 44, RangeQ.mk 45 59, RangeQ.mk 60 79]
        [0.53, 0.32, 0.15] u9 (RangeQ.mk 0 0)).min
      (weightedRandomChoice [RangeQ.mk 35 44, RangeQ.mk 45 59, RangeQ.mk 60 79]
        [0.53, 0.32, 0.15] u9 (RangeQ.mk 0 0)).max u10 ≤ 79 := by
  have hmem : weightedRandomChoice [RangeQ.mk 35 44, RangeQ.mk 45 59, RangeQ.mk 60 79]
      [0.53, 0.32, 0.15] u9 (RangeQ.mk 0 0) ∈
      [RangeQ.mk 35 44, RangeQ.mk 45 59, RangeQ.mk 60 79] := by
    rcases weightedRandomChoice_mem [RangeQ.mk 35 44, RangeQ.mk 45 59, RangeQ.mk 60 79]
        [0.53, 0.32, 0.15] u9 (RangeQ.mk 0 0) with h | h
    · exact h
    · have hlast : ([RangeQ.mk 35 44, RangeQ.mk 45 59, RangeQ.mk 60 79]).getLastD
          (RangeQ.mk 0 0) = RangeQ.mk 60 79 := rfl
      rw [h, hlast]
      simp
  simp only [List.mem_cons, List.not_mem_nil, or_false] at hmem
  rcases hmem with h | h | h <;> rw [h]
  · obtain ⟨ha, hb, hc⟩ := randomFromRange_bounds 35 44 rfl rfl (by norm_num) hu0 hu1
    exact ⟨hc, ha, by linarith⟩
  · obtain ⟨ha, hb, hc⟩ := randomFromRange_bounds 45 59 rfl rfl (by norm_num) hu0 hu1
    exact ⟨hc, by linarith, by linarith⟩
  · obtain ⟨ha, hb, hc⟩ := randomFromRange_bounds 60 79 rfl rfl (by norm_num) hu0 hu1
    exact ⟨hc, by linarith, hb⟩

/-- C9: every parameter bundle produced by `generateRandomCurveParameters`
(for any endpoint distance `dist ≥ 0` and in-range draws) satisfies the
trajectory builder's preconditions — integer `knotsCount ∈ [2,10]`, integer
`targetPoints ∈ [35,79]`, `distortionFrequency ∈ [0.25, 0.69] ⊆ [0,1]`,
`offsetBoundaryX/Y ≥ 30` — and building a trajectory from the bundle (any
endpoints, any tween, any draws) never raises. -/
theorem generatedParams_satisfy_preconditions (dist : ℚ) (u : ℕ → ℚ)
    (hd : 0 ≤ dist) (hu : ∀ i, 0 ≤ u i ∧ u i < 1) :
    ((generateRandomCurveParameters dist u).knotsCount.den = 1 ∧
      2 ≤ (generateRandomCurveParameters dist u).knotsCount ∧
      (generateRandomCurveParameters dist u).knotsCount ≤ 10) ∧
    ((generateRandomCurveParameters dist u).targetPoints.den = 1 ∧
      35 ≤ (generateRandomCurveParameters dist u).targetPoints ∧
      (generateRandomCurveParameters dist u).targetPoints ≤ 79) ∧
    (1/4 ≤ (generateRandomCurveParameters dist u).distortionFrequency ∧
      (generateRandomCurveParameters dist u).distortionFrequency ≤ 69/100) ∧
    (30 ≤ (generateRandomCurveParameters dist u).offsetBoundaryX ∧
      30 ≤ (generateRandomCurveParameters dist u).offsetBoundaryY) ∧
    ∀ (fromP toP : Vec) (tw : ℚ → ℚ) (randKnots coin noise : ℕ → ℚ),
      ∃ ps, generateCurve fromP toP
        (optionsOfParams (generateRandomCurveParameters dist u) tw)
        randKnots coin noise = .ok ps := by
  obtain ⟨hkden, hk1, hk10⟩ := knots_choice_facts (u 5)
  have hknots : (generateRandomCurveParameters dist u).knotsCount.den = 1 ∧
      2 ≤ (generateRandomCurveParameters dist u).knotsCount ∧
      (generateRandomCurveParameters dist u).knotsCount ≤ 10 := by
    rw [gRCP_knotsCount]
    rcases le_total (weightedRandomChoice [1, 2, 3, 4, 5, 6, 7, 8, 9, 10]
        [0.15, 0.36, 0.17, 0.12, 0.08, 0.04, 0.03, 0.02, 0.015, 0.005] (u 5) (0 : ℚ)) 2
        with hle | hle
    · rw [max_eq_right hle]
      exact ⟨rfl, le_refl _, by norm_num⟩
    · rw [max_eq_left hle]
      exact ⟨hkden, hle, hk10⟩
  have htarget : (generateRandomCurveParameters dist u).targetPoints.den = 1 ∧
      35 ≤ (generateRandomCurveParameters dist u).targetPoints ∧
      (generateRandomCurveParameters dist u).targetPoints ≤ 79 := by
    rw [gRCP_targetPoints]
    exact target_choice_facts (u 9) (hu 10).1 (hu 10).2
  have hfreq : 1/4 ≤ (generateRandomCurveParameters dist u).distortionFrequency ∧
      (generateRandomCurveParameters dist u).distortionFrequency ≤ 69/100 := by
    rw [gRCP_distortionFrequency]
    obtain ⟨ha, hb, _⟩ := randomFromRange_bounds 25 69 rfl rfl (by norm_num) (hu 8).1 (hu 8).2
    constructor <;> [linarith; linarith]
  have hminb : (30 : ℚ) ≤ max 30 (dist * 0.15) := le_max_left _ _
  have hoffX : 30 ≤ (generateRandomCurveParameters dist u).offsetBoundaryX := by
    rw [gRCP_offsetBoundaryX]
    exact le_trans hminb (le_max_right _ _)
  have hoffY : 30 ≤ (generateRandomCurveParameters dist u).offsetBoundaryY := by
    rw [gRCP_offsetBoundaryY]
    exact le_trans hminb (le_max_right _ _)
  refine ⟨hknots, htarget, hfreq, ⟨hoffX, hoffY⟩, ?_⟩
  intro fromP toP tw randKnots coin noise
  have hvalid : ValidCurveInputs fromP toP
      (optionsOfParams (generateRandomCurveParameters dist u) tw) := by
    refine ⟨?_, ?_, ?_, ?_, ?_, ?_⟩
    · show min fromP.x toP.x - (generateRandomCurveParameters dist u).offsetBoundaryX ≤
        max fromP.x toP.x + (generateRandomCurveParameters dist u).offsetBoundaryX
      have hmm : min fromP.x toP.x ≤ max fromP.x toP.x := min_le_max
      linarith
    · show min fromP.y toP.y - (generateRandomCurveParameters dist u).offsetBoundaryY ≤
        max fromP.y toP.y + (generateRandomCurveParameters dist u).offsetBoundaryY
      have hmm : min fromP.y toP.y ≤ max fromP.y toP.y := min_le_max
      linarith
    · show (0 : ℚ) ≤ (generateRandomCurveParameters dist u).distortionFrequency
      linarith [hfreq.1]
    · show (generateRandomCurveParameters dist u).distortionFrequency ≤ 1
      linarith [hfreq.2]
    · exact htarget.1
    · show (2 : ℚ) ≤ (generateRandomCurveParameters dist u).targetPoints
      linarith [htarget.2.1]
  obtain ⟨ps, hps, _⟩ := generateCurve_ok_spec fromP toP
    (optionsOfParams (generateRandomCurveParameters dist u) tw) randKnots coin noise hvalid
  exact ⟨ps, hps⟩

/-- Witness for C9 at `dist = 5` and the constant-`1/2` draw stream. -/
theorem generatedParams_satisfy_preconditions_witness :
    (0 : ℚ) ≤ 5 ∧ (∀ i : ℕ, 0 ≤ (fun _ : ℕ => (1 : ℚ)/2) i ∧ (fun _ : ℕ => (1 : ℚ)/2) i < 1) ∧
      (((generateRandomCurveParameters 5 (fun _ => 1/2)).knotsCount.den = 1 ∧
        2 ≤ (generateRandomCurveParameters 5 (fun _ => 1/2)).knotsCount ∧
        (generateRandomCurveParameters 5 (fun _ => 1/2)).knotsCount ≤ 10) ∧
      ((generateRandomCurveParameters 5 (fun _ => 1/2)).targetPoints.den = 1 ∧
        35 ≤ (generateRandomCurveParameters 5 (fun _ => 1/2)).targetPoints ∧
        (generateRandomCurveParameters 5 (fun _ => 1/2)).targetPoints ≤ 79) ∧
      (1/4 ≤ (generateRandomCurveParameters 5 (fun _ => 1/2)).distortionFrequency ∧
        (generateRandomCurveParameters 5 (fun _ => 1/2)).distortionFrequency ≤ 69/100) ∧
      (30 ≤ (generateRandomCurveParameters 5 (fun _ => 1/2)).offsetBoundaryX ∧
        30 ≤ (generateRandomCurveParameters 5 (fun _ => 1/2)).offsetBoundaryY) ∧
      ∀ (fromP toP : Vec) (tw : ℚ → ℚ) (randKnots coin noise : ℕ → ℚ),
        ∃ ps, generateCurve fromP toP
          (optionsOfParams (generateRandomCurveParameters 5 (fun _ => 1/2)) tw)
          randKnots coin noise = .ok ps) :=
  ⟨by norm_num, fun i => ⟨by norm_num, by norm_num⟩,
    generatedParams_satisfy_preconditions 5 (fun _ => 1/2) (by norm_num)
      (fun i => ⟨by norm_num, by norm_num⟩)⟩

/-! ## The easing catalog satisfies the easing contract -/

lemma cube_mono {a b : ℝ} (h : a ≤ b) : a ^ 3 ≤ b ^ 3 :=
  (Odd.strictMono_pow (⟨1, by norm_num⟩ : Odd 3)).monotone h

lemma pow5_mono {a b : ℝ} (h : a ≤ b) : a ^ 5 ≤ b ^ 5 :=
  (Odd.strictMono_pow (⟨2, by norm_num⟩ : Odd 5)).monotone h

lemma linear_isEasing : IsEasing linear :=
  ⟨rfl, rfl, fun _ h0 h1 => ⟨h0, h1⟩, fun _ _ _ hst _ => hst⟩

lemma easeOutCubic_isEasing : IsEasing easeOutCubic := by
  refine ⟨?_, ?_, ?_, ?_⟩
  · unfold easeOutCubic
    norm_num
  · unfold easeOutCubic
    norm_num
  · intro t h0 h1
    unfold easeOutCubic
    have hlo := cube_mono (show (-1 : ℝ) ≤ t - 1 by linarith)
    have hhi := cube_mono (show t - 1 ≤ (0 : ℝ) by linarith)
    norm_num at hlo hhi
    constructor <;> linarith
  · intro s t hs hst ht
    unfold easeOutCubic
    have := cube_mono (show s - 1 ≤ t - 1 by linarith)
    linarith

lemma easeOutQuint_isEasing : IsEasing easeOutQuint := by
  refine ⟨?_, ?_, ?_, ?_⟩
  · unfold easeOutQuint
    norm_num
  · unfold easeOutQuint
    norm_num
  · intro t h0 h1
    unfold easeOutQuint
    have hlo := pow5_mono (show (-1 : ℝ) ≤ t - 1 by linarith)
    have hhi := pow5_mono (show t - 1 ≤ (0 : ℝ) by linarith)
    norm_num at hlo hhi
    constructor <;> linarith
  · intro s t hs hst ht
    unfold easeOutQuint
    have := pow5_mono (show s - 1 ≤ t - 1 by linarith)
    linarith

lemma easeOutQuart_isEasing : IsEasing easeOutQuart := by
  refine ⟨?_, ?_, ?_, ?_⟩
  · unfold easeOutQuart
    norm_num
  · unfold easeOutQuart
    norm_num
  · intro t h0 h1
    unfold easeOutQuart
    rw [show (t - 1) ^ 4 = (1 - t) ^ 4 by ring]
    have hge : (0 : ℝ) ≤ (1 - t) ^ 4 := by positivity
    have hle : (1 - t) ^ 4 ≤ 1 ^ 4 := pow_le_pow_left₀ (by linarith) (by linarith) 4
    norm_num at hle
    constructor <;> linarith
  · intro s t hs hst ht
    unfold easeOutQuart
    rw [show (s - 1) ^ 4 = (1 - s) ^ 4 by ring, show (t - 1) ^ 4 = (1 - t) ^ 4 by ring]
    have := pow_le_pow_left₀ (show (0 : ℝ) ≤ 1 - t by linarith)
      (show (1 : ℝ) - t ≤ 1 - s by linarith) 4
    linarith

lemma easeOutSine_isEasing : IsEasing easeOutSine := by
  have hpi := Real.pi_pos
  refine ⟨?_, ?_, ?_, ?_⟩
  · unfold easeOutSine
    rw [show (0 : ℝ) * Real.pi / 2 = 0 by ring, Real.sin_zero]
  · unfold easeOutSine
    rw [show (1 : ℝ) * Real.pi / 2 = Real.pi / 2 by ring, Real.sin_pi_div_two]
  · intro t h0 h1
    unfold easeOutSine
    constructor
    · apply Real.sin_nonneg_of_nonneg_of_le_pi
      · nlinarith
      · nlinarith
    · exact Real.sin_le_one _
  · intro s t hs hst ht
    rcases eq_or_lt_of_le hst with rfl | hlt
    · exact le_refl _
    · unfold easeOutSine
      have hmem1 : s * Real.pi / 2 ∈ Set.Icc (-(Real.pi / 2)) (Real.pi / 2) :=
        Set.mem_Icc.2 ⟨by nlinarith, by nlinarith⟩
      have hmem2 : t * Real.pi / 2 ∈ Set.Icc (-(Real.pi / 2)) (Real.pi / 2) :=
        Set.mem_Icc.2 ⟨by nlinarith, by nlinarith⟩
      exact (Real.strictMonoOn_sin hmem1 hmem2 (by nlinarith)).le

lemma easeInOutSine_isEasing : IsEasing easeInOutSine := by
  have hpi := Real.pi_pos
  refine ⟨?_, ?_, ?_, ?_⟩
  · unfold easeInOutSine
    rw [show Real.pi * 0 = 0 by ring, Real.cos_zero]
    norm_num
  · unfold easeInOutSine
    rw [show Real.pi * 1 = Real.pi by ring, Real.cos_pi]
    norm_num
  · intro t h0 h1
    unfold easeInOutSine
    have hle := Real.cos_le_one (Real.pi * t)
    have hge := Real.neg_one_le_cos (Real.pi * t)
    constructor <;> linarith
  · intro s t hs hst ht
    rcases eq_or_lt_of_le hst with rfl | hlt
    · exact le_refl _
    · unfold easeInOutSine
      have hmem1 : Real.pi * s ∈ Set.Icc 0 Real.pi := Set.mem_Icc.2 ⟨by nlinarith, by nlinarith⟩
      have hmem2 : Real.pi * t ∈ Set.Icc 0 Real.pi := Set.mem_Icc.2 ⟨by nlinarith, by nlinarith⟩
      have hc := Real.strictAntiOn_cos hmem1 hmem2 (by nlinarith)
      linarith

lemma easeOutCirc_isEasing : IsEasing easeOutCirc := by
  refine ⟨?_, ?_, ?_, ?_⟩
  · unfold easeOutCirc
    norm_num
  · unfold easeOutCirc
    norm_num
  · intro t h0 h1
    unfold easeOutCirc
    refine ⟨Real.sqrt_nonneg _, ?_⟩
    rw [Real.sqrt_le_one]
    nlinarith [sq_nonneg (t - 1)]
  · intro s t hs hst ht
    unfold easeOutCirc
    apply Real.sqrt_le_sqrt
    nlinarith [mul_nonneg (show (0 : ℝ) ≤ 2 - s - t by linarith)
      (show (0 : ℝ) ≤ t - s by linarith)]

lemma easeOutExpo_isEasing : IsEasing easeOutExpo := by
  have hbound : ∀ t : ℝ, 0 ≤ t → t ≤ 1 → 0 ≤ easeOutExpo t ∧ easeOutExpo t ≤ 1 := by
    intro t h0 h1
    unfold easeOutExpo
    by_cases hc : t = 1
    · rw [if_pos hc]
      norm_num
    · rw [if_neg hc]
      have hle : (2 : ℝ) ^ (-10 * t) ≤ 1 :=
        Real.rpow_le_one_of_one_le_of_nonpos (by norm_num) (by linarith)
      have hpos : (0 : ℝ) < (2 : ℝ) ^ (-10 * t) := Real.rpow_pos_of_pos (by norm_num) _
      constructor <;> linarith
  refine ⟨?_, ?_, hbound, ?_⟩
  · unfold easeOutExpo
    rw [if_neg (by norm_num), show (-10 : ℝ) * 0 = 0 by ring, Real.rpow_zero]
    norm_num
  · unfold easeOutExpo
    rw [if_pos rfl]
  · intro s t hs hst ht
    by_cases htc : t = 1
    · have h1 : easeOutExpo t = 1 := by
        unfold easeOutExpo
        rw [if_pos htc]
      rw [h1]
      exact (hbound s hs (le_trans hst ht)).2
    · have hsc : s ≠ 1 := by
        intro h
        subst h
        exact htc (le_antisymm ht hst)
      unfold easeOutExpo
      rw [if_neg hsc, if_neg htc]
      have := Real.rpow_le_rpow_of_exponent_le (show (1 : ℝ) ≤ 2 by norm_num)
        (show -10 * t ≤ -10 * s by linarith)
      linarith

lemma easeInOutCubic_isEasing : IsEasing easeInOutCubic := by
  have hbound : ∀ t : ℝ, 0 ≤ t → t ≤ 1 → 0 ≤ easeInOutCubic t ∧ easeInOutCubic t ≤ 1 ∧
      (t < 1/2 → easeInOutCubic t ≤ 1/2) ∧ (1/2 ≤ t → 1/2 ≤ easeInOutCubic t) := by
    intro t h0 h1
    unfold easeInOutCubic
    by_cases hc : t < 1/2
    · rw [if_pos hc]
      have hcb := cube_mono (show t ≤ (1 : ℝ)/2 by linarith)
      have hcb0 : (0 : ℝ) ≤ t ^ 3 := by positivity
      norm_num at hcb
      refine ⟨by linarith, by linarith, fun _ => by linarith,
        fun hh => absurd hh (not_le.2 hc)⟩
    · rw [if_neg hc]
      push_neg at hc
      have hlo := cube_mono (show (-1 : ℝ) ≤ 2 * t - 2 by linarith)
      have hhi := cube_mono (show 2 * t - 2 ≤ (0 : ℝ) by linarith)
      norm_num at hlo hhi
      refine ⟨by linarith, by linarith, fun hh => absurd hh (not_lt.2 hc),
        fun _ => by linarith⟩
  refine ⟨?_, ?_, fun t h0 h1 => ⟨(hbound t h0 h1).1, (hbound t h0 h1).2.1⟩, ?_⟩
  · unfold easeInOutCubic
    rw [if_pos (by norm_num)]
    norm_num
  · unfold easeInOutCubic
    rw [if_neg (by norm_num)]
    norm_num
  · intro s t hs hst ht
    by_cases hsc : s < 1/2
    · by_cases htc : t < 1/2
      · unfold easeInOutCubic
        rw [if_pos hsc, if_pos htc]
        have := cube_mono hst
        linarith
      · push_neg at htc
        have ha := (hbound s hs (by linarith)).2.2.1 hsc
        have hb := (hbound t (by linarith) ht).2.2.2 htc
        linarith
    · push_neg at hsc
      unfold easeInOutCubic
      rw [if_neg (not_lt.2 hsc), if_neg (not_lt.2 (by linarith : (1 : ℝ)/2 ≤ t))]
      have := cube_mono (show 2 * s - 2 ≤ 2 * t - 2 by linarith)
      linarith

lemma easeInOutQuart_isEasing : IsEasing easeInOutQuart := by
  have hbound : ∀ t : ℝ, 0 ≤ t → t ≤ 1 → 0 ≤ easeInOutQuart t ∧ easeInOutQuart t ≤ 1 ∧
      (t < 1/2 → easeInOutQuart t ≤ 1/2) ∧ (1/2 ≤ t → 1/2 ≤ easeInOutQuart t) := by
    intro t h0 h1
    unfold easeInOutQuart
    by_cases hc : t < 1/2
    · rw [if_pos hc]
      have hle : t ^ 4 ≤ (1/2 : ℝ) ^ 4 := pow_le_pow_left₀ h0 (by linarith) 4
      have hge : (0 : ℝ) ≤ t ^ 4 := by positivity
      norm_num at hle
      refine ⟨by linarith, by linarith, fun _ => by linarith,
        fun hh => absurd hh (not_le.2 hc)⟩
    · rw [if_neg hc]
      push_neg at hc
      rw [show (t - 1) ^ 4 = (1 - t) ^ 4 by ring]
      have hle : (1 - t) ^ 4 ≤ (1/2 : ℝ) ^ 4 :=
        pow_le_pow_left₀ (by linarith) (by linarith) 4
      have hge : (0 : ℝ) ≤ (1 - t) ^ 4 := by positivity
      norm_num at hle
      refine ⟨by linarith, by linarith, fun hh => absurd hh (not_lt.2 hc),
        fun _ => by linarith⟩
  refine ⟨?_, ?_, fun t h0 h1 => ⟨(hbound t h0 h1).1, (hbound t h0 h1).2.1⟩, ?_⟩
  · unfold easeInOutQuart
    rw [if_pos (by norm_num)]
    norm_num
  · unfold easeInOutQuart
    rw [if_neg (by norm_num)]
    norm_num
  · intro s t hs hst ht
    by_cases hsc : s < 1/2
    · by_cases htc : t < 1/2
      · unfold easeInOutQuart
        rw [if_pos hsc, if_pos htc]
        have := pow_le_pow_left₀ hs hst 4
        linarith
      · push_neg at htc
        have ha := (hbound s hs (by linarith)).2.2.1 hsc
        have hb := (hbound t (by linarith) ht).2.2.2 htc
        linarith
    · push_neg at hsc
      unfold easeInOutQuart
      rw [if_neg (not_lt.2 hsc), if_neg (not_lt.2 (by linarith : (1 : ℝ)/2 ≤ t)),
        show (s - 1) ^ 4 = (1 - s) ^ 4 by ring, show (t - 1) ^ 4 = (1 - t) ^ 4 by ring]
      have := pow_le_pow_left₀ (show (0 : ℝ) ≤ 1 - t by linarith)
        (show (1 : ℝ) - t ≤ 1 - s by linarith) 4
      linarith

lemma easeInOutQuint_isEasing : IsEasing easeInOutQuint := by
  have hbound : ∀ t : ℝ, 0 ≤ t → t ≤ 1 → 0 ≤ easeInOutQuint t ∧ easeInOutQuint t ≤ 1 ∧
      (t < 1/2 → easeInOutQuint t ≤ 1/2) ∧ (1/2 ≤ t → 1/2 ≤ easeInOutQuint t) := by
    intro t h0 h1
    unfold easeInOutQuint
    by_cases hc : t < 1/2
    · rw [if_pos hc]
      have hle : t ^ 5 ≤ (1/2 : ℝ) ^ 5 := pow_le_pow_left₀ h0 (by linarith) 5
      have hge : (0 : ℝ) ≤ t ^ 5 := by positivity
      norm_num at hle
      refine ⟨by linarith, by linarith, fun _ => by linarith,
        fun hh => absurd hh (not_le.2 hc)⟩
    · rw [if_neg hc]
      push_neg at hc
      have hlo := pow5_mono (show (-(1 : ℝ)/2) ≤ t - 1 by linarith)
      have hhi := pow5_mono (show t - 1 ≤ (0 : ℝ) by linarith)
      norm_num at hlo hhi
      refine ⟨by linarith, by linarith, fun hh => absurd hh (not_lt.2 hc),
        fun _ => by linarith⟩
  refine ⟨?_, ?_, fun t h0 h1 => ⟨(hbound t h0 h1).1, (hbound t h0 h1).2.1⟩, ?_⟩
  · unfold easeInOutQuint
    rw [if_pos (by norm_num)]
    norm_num
  · unfold easeInOutQuint
    rw [if_neg (by norm_num)]
    norm_num
  · intro s t hs hst ht
    by_cases hsc : s < 1/2
    · by_cases htc : t < 1/2
      · unfold easeInOutQuint
        rw [if_pos hsc, if_pos htc]
        have := pow_le_pow_left₀ hs hst 5
        linarith
      · push_neg at htc
        have ha := (hbound s hs (by linarith)).2.2.1 hsc
        have hb := (hbound t (by linarith) ht).2.2.2 htc
        linarith
    · push_neg at hsc
      unfold easeInOutQuint
      rw [if_neg (not_lt.2 hsc), if_neg (not_lt.2 (by linarith : (1 : ℝ)/2 ≤ t))]
      have := pow5_mono (show s - 1 ≤ t - 1 by linarith)
      linarith

lemma easeInOutCirc_isEasing : IsEasing easeInOutCirc := by
  have hbound : ∀ t : ℝ, 0 ≤ t → t ≤ 1 → 0 ≤ easeInOutCirc t ∧ easeInOutCirc t ≤ 1 ∧
      (t < 1/2 → easeInOutCirc t ≤ 1/2) ∧ (1/2 ≤ t → 1/2 ≤ easeInOutCirc t) := by
    intro t h0 h1
    unfold easeInOutCirc
    by_cases hc : t < 1/2
    · rw [if_pos hc]
      have hs0 := Real.sqrt_nonneg (1 - (2 * t) ^ 2)
      have hs1 : Real.sqrt (1 - (2 * t) ^ 2) ≤ 1 := by
        rw [Real.sqrt_le_one]
        nlinarith
      refine ⟨by linarith, by linarith, fun _ => by linarith,
        fun hh => absurd hh (not_le.2 hc)⟩
    · rw [if_neg hc]
      push_neg at hc
      have hs0 := Real.sqrt_nonneg (1 - (-2 * t + 2) ^ 2)
      have hs1 : Real.sqrt (1 - (-2 * t + 2) ^ 2) ≤ 1 := by
        rw [Real.sqrt_le_one]
        nlinarith
      refine ⟨by linarith, by linarith, fun hh => absurd hh (not_lt.2 hc),
        fun _ => by linarith⟩
  refine ⟨?_, ?_, fun t h0 h1 => ⟨(hbound t h0 h1).1, (hbound t h0 h1).2.1⟩, ?_⟩
  · unfold easeInOutCirc
    rw [if_pos (by norm_num)]
    norm_num
  · unfold easeInOutCirc
    rw [if_neg (by norm_num)]
    norm_num
  · intro s t hs hst ht
    by_cases hsc : s < 1/2
    · by_cases htc : t < 1/2
      · unfold easeInOutCirc
        rw [if_pos hsc, if_pos htc]
        have hsq : Real.sqrt (1 - (2 * t) ^ 2) ≤ Real.sqrt (1 - (2 * s) ^ 2) := by
          apply Real.sqrt_le_sqrt
          nlinarith [mul_nonneg (show (0 : ℝ) ≤ t - s by linarith)
            (show (0 : ℝ) ≤ t + s by linarith)]
        linarith
      · push_neg at htc
        have ha := (hbound s hs (by linarith)).2.2.1 hsc
        have hb := (hbound t (by linarith) ht).2.2.2 htc
        linarith
    · push_neg at hsc
      unfold easeInOutCirc
      rw [if_neg (not_lt.2 hsc), if_neg (not_lt.2 (by linarith : (1 : ℝ)/2 ≤ t))]
      have hsq : Real.sqrt (1 - (-2 * s + 2) ^ 2) ≤ Real.sqrt (1 - (-2 * t + 2) ^ 2) := by
        apply Real.sqrt_le_sqrt
        nlinarith [mul_nonneg (show (0 : ℝ) ≤ t - s by linarith)
          (show (0 : ℝ) ≤ 4 - 2 * s - 2 * t by linarith)]
      linarith

lemma easeInOutExpo_isEasing : IsEasing easeInOutExpo := by
  have two1 : (1 : ℝ) ≤ 2 := by norm_num
  have hbound : ∀ t : ℝ, 0 ≤ t → t ≤ 1 → 0 ≤ easeInOutExpo t ∧ easeInOutExpo t ≤ 1 ∧
      (t < 1/2 → easeInOutExpo t ≤ 1/2) ∧
      (1/2 ≤ t → t ≠ 0 → 1/2 ≤ easeInOutExpo t) := by
    intro t h0 h1
    unfold easeInOutExpo
    rcases eq_or_ne t 0 with rfl | hc0
    · rw [if_pos rfl]
      norm_num
    · rcases eq_or_ne t 1 with rfl | hc1
      · rw [if_neg (by norm_num), if_pos rfl]
        norm_num
      · rw [if_neg hc0, if_neg hc1]
        by_cases hc : t < 1/2
        · rw [if_pos hc]
          have hle : (2 : ℝ) ^ (20 * t - 10) ≤ 1 :=
            Real.rpow_le_one_of_one_le_of_nonpos two1 (by linarith)
          have hpos : (0 : ℝ) < (2 : ℝ) ^ (20 * t - 10) :=
            Real.rpow_pos_of_pos (by norm_num) _
          refine ⟨by linarith, by linarith, fun _ => by linarith,
            fun hh _ => absurd hh (not_le.2 hc)⟩
        · rw [if_neg hc]
          push_neg at hc
          have hle : (2 : ℝ) ^ (-20 * t + 10) ≤ 1 :=
            Real.rpow_le_one_of_one_le_of_nonpos two1 (by linarith)
          have hpos : (0 : ℝ) < (2 : ℝ) ^ (-20 * t + 10) :=
            Real.rpow_pos_of_pos (by norm_num) _
          refine ⟨by linarith, by linarith, fun hh => absurd hh (not_lt.2 hc),
            fun _ _ => by linarith⟩
  refine ⟨?_, ?_, fun t h0 h1 => ⟨(hbound t h0 h1).1, (hbound t h0 h1).2.1⟩, ?_⟩
  · unfold easeInOutExpo
    rw [if_pos rfl]
  · unfold easeInOutExpo
    rw [if_neg (by norm_num), if_pos rfl]
  · intro s t hs hst ht
    rcases eq_or_ne t 0 with rfl | ht0
    · have hs0 : s = 0 := le_antisymm hst hs
      rw [hs0]
    · rcases eq_or_ne t 1 with rfl | ht1
      · have h2 := (hbound s hs (le_trans hst (le_refl 1))).2.1
        have hone : easeInOutExpo 1 = 1 := by
          unfold easeInOutExpo
          rw [if_neg (by norm_num), if_pos rfl]
        rw [hone]
        exact h2
      · rcases eq_or_ne s 0 with rfl | hs0
        · have h1 := (hbound t hst ht).1
          have hzero : easeInOutExpo 0 = 0 := by
            unfold easeInOutExpo
            rw [if_pos rfl]
          rw [hzero]
          exact h1
        · have hs1 : s ≠ 1 := by
            intro h
            subst h
            exact ht1 (le_antisymm ht hst)
          by_cases hsc : s < 1/2
          · by_cases htc : t < 1/2
            · unfold easeInOutExpo
              rw [if_neg hs0, if_neg hs1, if_pos hsc, if_neg ht0, if_neg ht1, if_pos htc]
              have := Real.rpow_le_rpow_of_exponent_le two1
                (show 20 * s - 10 ≤ 20 * t - 10 by linarith)
              linarith
            · push_neg at htc
              have ha := (hbound s hs (by linarith)).2.2.1 hsc
              have hb := (hbound t (by linarith) ht).2.2.2 htc ht0
              linarith
          · push_neg at hsc
            unfold easeInOutExpo
            rw [if_neg hs0, if_neg hs1, if_neg (not_lt.2 hsc), if_neg ht0, if_neg ht1,
              if_neg (not_lt.2 (by linarith : (1 : ℝ)/2 ≤ t))]
            have := Real.rpow_le_rpow_of_exponent_le two1
              (show -20 * t + 10 ≤ -20 * s + 10 by linarith)
            linarith

/-- C7: every easing function in the `TWEEN_OPTIONS` catalog has exact
endpoints `f 0 = 0`, `f 1 = 1`, maps `[0,1]` into `[0,1]`, and is monotone
non-decreasing on `[0,1]`. -/
theorem tween_catalog_easing :
    ∀ f ∈ TWEEN_OPTIONS,
      f 0 = 0 ∧ f 1 = 1 ∧
      (∀ t : ℝ, 0 ≤ t → t ≤ 1 → 0 ≤ f t ∧ f t ≤ 1) ∧
      (∀ s t : ℝ, 0 ≤ s → s ≤ t → t ≤ 1 → f s ≤ f t) := by
  intro f hf
  simp only [TWEEN_OPTIONS, List.mem_cons, List.not_mem_nil, or_false] at hf
  rcases hf with rfl | rfl | rfl | rfl | rfl | rfl | rfl | rfl | rfl | rfl | rfl | rfl | rfl
  · exact easeOutExpo_isEasing
  · exact easeInOutQuint_isEasing
  · exact easeInOutSine_isEasing
  · exact easeInOutQuart_isEasing
  · exact easeInOutExpo_isEasing
  · exact easeInOutCubic_isEasing
  · exact easeInOutCirc_isEasing
  · exact linear_isEasing
  · exact easeOutSine_isEasing
  · exact easeOutQuart_isEasing
  · exact easeOutQuint_isEasing
  · exact easeOutCubic_isEasing
  · exact easeOutCirc_isEasing

/-- Witness for C7 at the catalog member `linear`. -/
theorem tween_catalog_easing_witness :
    linear ∈ TWEEN_OPTIONS ∧
      (linear 0 = 0 ∧ linear 1 = 1 ∧
        (∀ t : ℝ, 0 ≤ t → t ≤ 1 → 0 ≤ linear t ∧ linear t ≤ 1) ∧
        (∀ s t : ℝ, 0 ≤ s → s ≤ t → t ≤ 1 → linear s ≤ linear t)) :=
  ⟨by simp [TWEEN_OPTIONS], tween_catalog_easing linear (by simp [TWEEN_OPTIONS])⟩

end HumanCursor
